import Mathlib

/-!
# RayCAD: scene store, undo history, physics step, STL export and the spiral plug-in

A shallow embedding of `src/plugin.h`, `src/main.cpp` and `src/spiral_gen.cpp`.

Conventions of the embedding

* A `float` value is a rational number. The definitions of the first sections
  compute with exact arithmetic. Stacking and coming to rest depend on the
  rounding of `float`: they are stated on the binary32 reading of the physics
  step (`UpdatePhysics32` and the definitions it uses), where every operation
  is rounded to the nearest binary32 value.
* `int` values are integers inside the 32-bit range; `nextId++` goes through
  `wrapInt32`, the two's-complement result produced by the compiled increment.
* `std::vector<T>` is `List T`; a range-for loop that writes through its
  reference is a fold over the indices that rewrites the element in place.
* The process-wide globals of `main.cpp` are the fields of `AppState`.
* A local `Block b;` declared without initialiser keeps whatever its storage
  held: the creation routines take that content as an argument.
* The file `ExportSTL` writes is the list of its bytes.
-/

namespace RayCAD

/-! ## Data model (`plugin.h`) -/

/-- Three floats, as mirrored from raylib in `plugin.h`. -/
structure Vector3 where
  x : ℚ
  y : ℚ
  z : ℚ
  deriving DecidableEq

/-- Four `unsigned char` channels. -/
structure Color where
  r : Nat
  g : Nat
  b : Nat
  a : Nat
  deriving DecidableEq

inductive ShapeType where
  | SHAPE_CUBE
  | SHAPE_CYLINDER
  | SHAPE_SPHERE
  | SHAPE_WEDGE
  | SHAPE_CONE
  deriving DecidableEq

inductive MaterialType where
  | MAT_DEFAULT
  | MAT_STEEL
  | MAT_WOOD
  | MAT_GLASS
  | MAT_GLOW
  | MAT_CONCRETE
  deriving DecidableEq

/-- The scene entity of `plugin.h`, field for field. -/
structure Block where
  id : Int
  position : Vector3
  size : Vector3
  rotation : Vector3
  color : Color
  type : ShapeType
  material : MaterialType
  visible : Bool
  velocity : Vector3
  isSleeping : Bool
  deriving DecidableEq

/-- The fields of `AppSettings` with their default member initialisers. -/
structure AppSettings where
  showGrid : Bool := true
  darkMode : Bool := true
  shadows : Bool := true
  wireframe : Bool := false
  skybox : Bool := true
  physics : Bool := false
  gridSize : ℚ := 1
  bg : Color := ⟨30, 30, 30, 255⟩
  deriving DecidableEq

/-- Raylib colour constant `DARKGRAY`. -/
def DARKGRAY : Color := ⟨80, 80, 80, 255⟩

/-- Raylib colour constant `RED`. -/
def RED : Color := ⟨230, 41, 55, 255⟩

/-- The globals of `main.cpp` that the scene, history, physics and command
code read or write. -/
structure AppState where
  currentPartBlocks : List Block
  consoleLog : List String
  undoStack : List (List Block)
  undoIndex : Int
  settings : AppSettings
  nextId : Int
  currentColor : Color
  deriving DecidableEq

/-- The globals as initialised at program start. -/
def initState : AppState :=
  { currentPartBlocks := []
    consoleLog := []
    undoStack := []
    undoIndex := -1
    settings := {}
    nextId := 1
    currentColor := RED }

/-- Largest value of a 32-bit `int`. -/
def INT_MAX : Int := 2147483647

/-- Two's-complement reduction of an integer to the 32-bit `int` range. -/
def wrapInt32 (n : Int) : Int := (n + 2147483648) % 4294967296 - 2147483648

/-! ## Helper functions (`main.cpp`, section 3) -/

/-- `Log`: `msg` is the line `vsprintf` formatted (the 128-byte buffer holds
every fixed message of the code); it is inserted at the front of `consoleLog`,
and the oldest line is dropped once there are more than 15. -/
def Log (msg : String) (s : AppState) : AppState :=
  let l := msg :: s.consoleLog
  { s with consoleLog := if l.length > 15 then l.dropLast else l }

/-- `SaveUndoState`: cut the snapshots after the cursor, push a copy of the
live scene, advance the cursor, and evict the oldest snapshot above 50. -/
def SaveUndoState (s : AppState) : AppState :=
  let stack1 :=
    if s.undoIndex < (s.undoStack.length : Int) - 1 then
      s.undoStack.take (s.undoIndex + 1).toNat
    else s.undoStack
  let stack2 := stack1 ++ [s.currentPartBlocks]
  let idx2 := s.undoIndex + 1
  if stack2.length > 50 then
    { s with undoStack := stack2.drop 1, undoIndex := idx2 - 1 }
  else
    { s with undoStack := stack2, undoIndex := idx2 }

/-- `PerformUndo`: when the cursor is positive, step it back, load the
snapshot under it and log. The read `undoStack[undoIndex]` is in range in every
state the history operations produce; outside the range it reads as `[]`. -/
def PerformUndo (s : AppState) : AppState :=
  if s.undoIndex > 0 then
    let idx := s.undoIndex - 1
    Log "Undo Executed"
      { s with undoIndex := idx, currentPartBlocks := s.undoStack.getD idx.toNat [] }
  else s

/-! ## Physics (`main.cpp`, section 4) -/

/-- `CheckCollision`: strict overlap of the two boxes on all three axes. -/
def CheckCollision (posA sizeA posB sizeB : Vector3) : Bool :=
  let x := decide (|posA.x - posB.x| < (sizeA.x + sizeB.x) / 2)
  let y := decide (|posA.y - posB.y| < (sizeA.y + sizeB.y) / 2)
  let z := decide (|posA.z - posB.z| < (sizeA.z + sizeB.z) / 2)
  x && y && z

/-- The time-step cap `0.016f`. -/
def dtCap : ℚ := 16 / 1000

/-- The constant `gravity = 9.8f`. -/
def gravity : ℚ := 98 / 10

/-- Velocity and position integration of one block followed by the floor
collision test (lines 142 to 150). -/
def integrateBlock (dt : ℚ) (b : Block) : Block :=
  let vy := b.velocity.y - gravity * dt
  let b1 : Block := { b with velocity := { b.velocity with y := vy } }
  let b2 : Block := { b1 with position := { b1.position with y := b1.position.y + b1.velocity.y * dt } }
  if b2.position.y - b2.size.y / 2 < 0 then
    { b2 with
      position := { b2.position with y := b2.size.y / 2 }
      velocity := { b2.velocity with y := 0 }
      isSleeping := true }
  else b2

/-- Body of the inner loop for the moving block `b` and one `other`. -/
def collideWith (b other : Block) : Block :=
  if b.id = other.id then b
  else if CheckCollision b.position b.size other.position other.size then
    if b.position.y > other.position.y then
      { b with
        position := { b.position with y := other.position.y + other.size.y / 2 + b.size.y / 2 }
        velocity := { b.velocity with y := 0 }
        isSleeping := true }
    else b
  else b

/-- One iteration of the inner loop: `b` is the element at index `i`, `other`
the element at index `j` of the same vector, and `b` is rewritten in place. -/
def innerStep (i : Nat) (scene : List Block) (j : Nat) : List Block :=
  match scene[i]?, scene[j]? with
  | some b, some other => scene.set i (collideWith b other)
  | _, _ => scene

/-- The inner loop `for (auto& other : currentPartBlocks)` for the block at
index `i`. -/
def innerLoop (i : Nat) (scene : List Block) : List Block :=
  (List.range scene.length).foldl (innerStep i) scene

/-- One iteration of the outer loop, for the block at index `i`. -/
def stepBlock (dt : ℚ) (i : Nat) (scene : List Block) : List Block :=
  match scene[i]? with
  | none => scene
  | some b =>
    if b.isSleeping || !b.visible then scene
    else innerLoop i (scene.set i (integrateBlock dt b))

/-- The outer loop `for (auto& b : currentPartBlocks)` with time step `dt`. -/
def physicsPass (dt : ℚ) (scene : List Block) : List Block :=
  (List.range scene.length).foldl (fun sc i => stepBlock dt i sc) scene

/-- `UpdatePhysics`; `frameTime` is the value returned by `GetFrameTime()`. -/
def UpdatePhysics (frameTime : ℚ) (s : AppState) : AppState :=
  if !s.settings.physics then s
  else
    let dt := if frameTime > dtCap then dtCap else frameTime
    { s with currentPartBlocks := physicsPass dt s.currentPartBlocks }

/-- `WakeAllPhysics`. -/
def WakeAllPhysics (s : AppState) : AppState :=
  { s with
    currentPartBlocks :=
      s.currentPartBlocks.map fun b => { b with isSleeping := false, velocity := ⟨0, 0, 0⟩ } }

/-! ## Creation routines and the command engine (`main.cpp`, sections 5 and 6) -/

/-- `GenerateBaseplate`; `u` is the content of the local `Block b;` before the
assignments (the routine assigns neither `rotation`, `material` nor
`velocity`). -/
def GenerateBaseplate (u : Block) (s : AppState) : AppState :=
  let s1 := SaveUndoState s
  let b : Block :=
    { u with
      id := s1.nextId
      size := ⟨40, 2 / 10, 40⟩
      position := ⟨0, -(1 / 10), 0⟩
      color := DARKGRAY
      type := ShapeType.SHAPE_CUBE
      visible := true
      isSleeping := true }
  let s2 : AppState :=
    { s1 with
      nextId := wrapInt32 (s1.nextId + 1)
      currentPartBlocks := s1.currentPartBlocks ++ [b] }
  Log "Baseplate generated at origin." s2

/-- One iteration of the `stairs` loop; `u` is the content of the local
`Block b;` before the assignments (the loop assigns neither `rotation`,
`material`, `velocity` nor `isSleeping`). -/
def stairsStep (u : Nat → Block) (s : AppState) (i : Nat) : AppState :=
  let b : Block :=
    { u i with
      id := s.nextId
      size := ⟨2, 1 / 2, 1⟩
      color := s.currentColor
      position := ⟨(i : ℚ) * (1 / 2), (i : ℚ) * (1 / 4), 0⟩
      type := ShapeType.SHAPE_CUBE
      visible := true }
  { s with
    nextId := wrapInt32 (s.nextId + 1)
    currentPartBlocks := s.currentPartBlocks ++ [b] }

/-- The characters removed from the end of the command line: blank, newline,
carriage return, tab. -/
def isTrimChar (c : Char) : Bool :=
  c == Char.ofNat 32 || c == Char.ofNat 10 || c == Char.ofNat 13 || c == Char.ofNat 9

/-- The characters `operator>>` treats as white space. -/
def isSpaceChar (c : Char) : Bool :=
  c == Char.ofNat 32 || (9 ≤ c.toNat && c.toNat ≤ 13)

/-- The first two statements of `RunCommand`: strip the trailing blanks, then
read the first white-space delimited token into `action`. -/
def parseAction (cmd : String) : String :=
  let trimmed := (cmd.data.reverse.dropWhile isTrimChar).reverse
  String.mk ((trimmed.dropWhile isSpaceChar).takeWhile fun c => !isSpaceChar c)

/-- The dispatch of `RunCommand` on the token `action`. -/
def runAction (u : Nat → Block) (action : String) (s : AppState) : AppState :=
  if action = "clear" then
    Log "Scene Cleared" { SaveUndoState s with currentPartBlocks := [] }
  else if action = "baseplate" then GenerateBaseplate (u 0) s
  else if action = "physics" then
    let s1 : AppState := { s with settings := { s.settings with physics := !s.settings.physics } }
    Log "Physics Toggled" (WakeAllPhysics s1)
  else if action = "stairs" then
    Log "Stairs generated." ((List.range 12).foldl (stairsStep u) (SaveUndoState s))
  else Log ("Unknown Command: " ++ action) s

/-- `RunCommand`; `u` gives the content of each uninitialised local `Block b;`
the command declares. -/
def RunCommand (u : Nat → Block) (cmd : String) (s : AppState) : AppState :=
  runAction u (parseAction cmd) s

/-- The state immediately after session start: the initial globals, then the
single `GenerateBaseplate()` call of `main`. -/
def sessionStart (u : Block) : AppState := GenerateBaseplate u initState

/-! ## The spiral plug-in (`spiral_gen.cpp`) -/

/-- The callbacks of `RayCAD_Host`. Its three pointers `nextId`, `activeColor`
and `gridSize` address host globals, here the fields `nextId`, `currentColor`
and `settings.gridSize` of the state, and the `scene` reference addresses
`currentPartBlocks`. -/
structure RayCAD_Host where
  Log : String → AppState → AppState
  PushUndo : AppState → AppState
  WakePhysics : AppState → AppState

/-- Modelled from the spec: the capability table the host hands to a plug-in
(the loader that fills it is not among the sources); logging is `Log`, the
checkpoint function wraps `SaveUndoState`, the wake-all function wraps
`WakeAllPhysics`. -/
def hostTable : RayCAD_Host :=
  { Log := Log, PushUndo := SaveUndoState, WakePhysics := WakeAllPhysics }

/-- One iteration of the plug-in loop. `cosf` and `sinf` are the C library
functions, `u` the content of the local `Block b;` before the assignments (the
loop does not assign `velocity`). -/
def spiralStep (cosf sinf : ℚ → ℚ) (u : Nat → Block) (s : AppState) (i : Nat) : AppState :=
  let radius : ℚ := 5
  let heightStep : ℚ := 1 / 2
  let angle : ℚ := (i : ℚ) * (4 / 10)
  let b : Block :=
    { u i with
      id := s.nextId
      position := ⟨cosf angle * radius, (i : ℚ) * heightStep, sinf angle * radius⟩
      size := ⟨3, 2 / 10, 1⟩
      color := s.currentColor
      rotation := ⟨0, -angle * (180 / (314159 / 100000)), 0⟩
      type := ShapeType.SHAPE_CUBE
      material := MaterialType.MAT_DEFAULT
      visible := true
      isSleeping := true }
  { s with
    nextId := wrapInt32 (s.nextId + 1)
    currentPartBlocks := s.currentPartBlocks ++ [b] }

/-- `RunPlugin` of the spiral generator. -/
def RunPlugin (cosf sinf : ℚ → ℚ) (u : Nat → Block) (host : RayCAD_Host) (s : AppState) :
    AppState :=
  let s1 := host.Log "Running Spiral Generator..." s
  let s2 := host.PushUndo s1
  let s3 := (List.range 30).foldl (spiralStep cosf sinf u) s2
  host.Log "Spiral complete! Added 30 blocks." s3

/-! ## Traces of history operations -/

/-- An edit between checkpoints: a checkpoint, or a mutation that replaces the
live scene and the id counter by arbitrary values. -/
inductive EditOp where
  | checkpoint
  | mutate (scene : List Block) (nextId : Int)

/-- Run one edit. -/
def runEdit (s : AppState) : EditOp → AppState
  | EditOp.checkpoint => SaveUndoState s
  | EditOp.mutate scene n => { s with currentPartBlocks := scene, nextId := n }

/-- Number of checkpoints in a trace. -/
def checkpoints : List EditOp → Nat
  | [] => 0
  | EditOp.checkpoint :: ops => checkpoints ops + 1
  | EditOp.mutate _ _ :: ops => checkpoints ops

/-- An arbitrary content for uninitialised block storage used in examples: a
block that is awake and moving. -/
def junkBlock : Block :=
  { id := 7
    position := ⟨1, 2, 3⟩
    size := ⟨1, 1, 1⟩
    rotation := ⟨0, 0, 0⟩
    color := ⟨1, 2, 3, 4⟩
    type := ShapeType.SHAPE_SPHERE
    material := MaterialType.MAT_WOOD
    visible := false
    velocity := ⟨0, -3, 0⟩
    isSleeping := false }

/-! ## Specification predicates -/

/-- The history invariant in the form the operations preserve: at most 50
snapshots, and either the empty stack with cursor `-1` or a cursor inside the
stack. -/
def HistoryOk (s : AppState) : Prop :=
  s.undoStack.length ≤ 50 ∧
    ((s.undoStack = [] ∧ s.undoIndex = -1) ∨
      (0 ≤ s.undoIndex ∧ s.undoIndex < (s.undoStack.length : Int)))

/-- The sequence `SaveUndoState` builds before the capacity test. -/
def pushedStack (s : AppState) : List (List Block) :=
  s.undoStack.take (s.undoIndex + 1).toNat ++ [s.currentPartBlocks]

/-- States reachable from an initial history (empty stack, cursor `-1`) by
checkpoints, undos and arbitrary changes that leave the history alone. -/
inductive HistReachable : AppState → Prop where
  | init (s : AppState) : s.undoStack = [] → s.undoIndex = -1 → HistReachable s
  | save (s : AppState) : HistReachable s → HistReachable (SaveUndoState s)
  | undo (s : AppState) : HistReachable s → HistReachable (PerformUndo s)
  | mutate (s t : AppState) : HistReachable s → t.undoStack = s.undoStack →
      t.undoIndex = s.undoIndex → HistReachable t

/-- States reachable from an initial state (empty scene, empty history, id
counter 1) by the creation, command, history and physics operations, along runs
in which the id counter does not overflow: a step that draws `k` ids is taken
only when `nextId + k ≤ INT_MAX`. -/
inductive Reachable : AppState → Prop where
  | init (s : AppState) : s.currentPartBlocks = [] → s.undoStack = [] → s.undoIndex = -1 →
      s.nextId = 1 → Reachable s
  | generateBaseplate (s : AppState) (u : Block) : Reachable s → s.nextId + 1 ≤ INT_MAX →
      Reachable (GenerateBaseplate u s)
  | runClear (s : AppState) (u : Nat → Block) : Reachable s → Reachable (RunCommand u "clear" s)
  | runBaseplate (s : AppState) (u : Nat → Block) : Reachable s → s.nextId + 1 ≤ INT_MAX →
      Reachable (RunCommand u "baseplate" s)
  | runPhysics (s : AppState) (u : Nat → Block) : Reachable s →
      Reachable (RunCommand u "physics" s)
  | runStairs (s : AppState) (u : Nat → Block) : Reachable s → s.nextId + 12 ≤ INT_MAX →
      Reachable (RunCommand u "stairs" s)
  | saveUndoState (s : AppState) : Reachable s → Reachable (SaveUndoState s)
  | performUndo (s : AppState) : Reachable s → Reachable (PerformUndo s)
  | updatePhysics (s : AppState) (t : ℚ) : Reachable s → Reachable (UpdatePhysics t s)
  | wakeAllPhysics (s : AppState) : Reachable s → Reachable (WakeAllPhysics s)

/-- A list of ids is duplicate free and below the counter value `n`. -/
def IdsOk (n : Int) (ids : List Int) : Prop := ids.Nodup ∧ ∀ i ∈ ids, i < n

/-- The id invariant: the counter is positive, and the ids of the live scene and
of every stored snapshot are duplicate free and below the counter. -/
def IdInv (s : AppState) : Prop :=
  1 ≤ s.nextId ∧ IdsOk s.nextId (s.currentPartBlocks.map Block.id) ∧
    ∀ snap ∈ s.undoStack, IdsOk s.nextId (snap.map Block.id)

/-- A sleeping unit cube centred at height 0. -/
def cubeA : Block :=
  { id := 1
    position := ⟨0, 0, 0⟩
    size := ⟨1, 1, 1⟩
    rotation := ⟨0, 0, 0⟩
    color := RED
    type := ShapeType.SHAPE_CUBE
    material := MaterialType.MAT_DEFAULT
    visible := true
    velocity := ⟨0, 0, 0⟩
    isSleeping := true }

/-- An awake unit cube released above `cubeA`. -/
def cubeB : Block :=
  { cubeA with id := 2, position := ⟨0, 2, 0⟩, isSleeping := false }

/-- A session with physics enabled whose scene is `cubeA` and `cubeB`. -/
def stackDemo : AppState :=
  { initState with
    settings := { physics := true }
    currentPartBlocks := [cubeA, cubeB]
    nextId := 3 }

/-! ## The physics pass as a recursion over the scene

An equivalent, list-recursive reading of the two loops of `UpdatePhysics`, used
in the proofs; `physicsPass_eq_passFrom` relates it to the index-based embedding. -/

/-- The inner loop seen from the moving block: `b` meets every element of
`others` in order. -/
def resolve (b : Block) (others : List Block) : Block := others.foldl collideWith b

/-- What one iteration of the outer loop does to its block `b` when the vector
holds `scene`. -/
def moveBlock (dt : ℚ) (scene : List Block) (b : Block) : Block :=
  if b.isSleeping || !b.visible then b else resolve (integrateBlock dt b) scene

/-- The outer loop with the vector split into the blocks already visited and
the blocks still to visit. -/
def passFrom (dt : ℚ) : List Block → List Block → List Block
  | done, [] => done
  | done, b :: rest => passFrom dt (done ++ [moveBlock dt (done ++ b :: rest) b]) rest

/-- The time step `UpdatePhysics` integrates with for the frame time `t`. -/
def clampDt (t : ℚ) : ℚ := if t > dtCap then dtCap else t

/-- The lower face of the block is at or above the floor. -/
def OnOrAboveFloor (b : Block) : Prop := 0 ≤ b.position.y - b.size.y / 2

/-- An awake unit cube with zero velocity at height 5. -/
def dropCube : Block :=
  { cubeA with id := 1, position := ⟨0, 5, 0⟩, isSleeping := false }

/-- A session with physics enabled whose scene is the single `dropCube`. -/
def dropDemo : AppState :=
  { initState with
    settings := { physics := true }
    currentPartBlocks := [dropCube]
    nextId := 2 }

/-- An awake unit cube placed on top of `cubeA`, its centre at height 1. -/
def cubeOnTop : Block :=
  { cubeA with id := 2, position := ⟨0, 1, 0⟩, isSleeping := false }

/-- The cube `cubeA` made invisible. -/
def ghostA : Block := { cubeA with visible := false }

/-- A session with physics enabled whose scene is `cubeA` with the awake
`cubeOnTop` resting on it. -/
def touchDemo : AppState := { stackDemo with currentPartBlocks := [cubeA, cubeOnTop] }

/-- The scene of `touchDemo` with the lower cube invisible. -/
def ghostDemo : AppState := { stackDemo with currentPartBlocks := [ghostA, cubeOnTop] }

/-- The block `o` is out of reach of the pairwise test of `b` whatever the
heights: the two have the same id, or their extents along x do not overlap, or
their extents along z do not overlap. -/
def PlanApart (b o : Block) : Prop :=
  b.id = o.id ∨ ¬ |b.position.x - o.position.x| < (b.size.x + o.size.x) / 2 ∨
    ¬ |b.position.z - o.position.z| < (b.size.z + o.size.z) / 2

instance (b o : Block) : Decidable (PlanApart b o) := by
  unfold PlanApart
  infer_instance

/-- The scene of `ghostDemo` with the invisible cube moved aside, to `x = 5`. -/
def apartDemo : AppState :=
  { stackDemo with
    currentPartBlocks := [{ ghostA with position := ⟨5, 0, 0⟩ }, cubeOnTop] }

/-! ## Binary STL export (`main.cpp`, section 5)

The output file is the list of its bytes. The four bytes that hold a `float` are
given by the parameter `f32`; the layout is little-endian, as on the Windows
target of the program. -/

/-- The two bytes of an `unsigned short`. -/
def u16le (n : Nat) : List Nat := [n % 256, n / 256 % 256]

/-- The four bytes of an `unsigned int`. -/
def u32le (n : Nat) : List Nat :=
  [n % 256, n / 256 % 256, n / 65536 % 256, n / 16777216 % 256]

/-- The `unsigned int` held by (the first) four bytes. -/
def u32decode (bs : List Nat) : Nat :=
  bs.getD 0 0 + 256 * bs.getD 1 0 + 65536 * bs.getD 2 0 + 16777216 * bs.getD 3 0

/-- The four bytes written for one `float`. -/
def floatBytes (f32 : ℚ → Fin 4 → Nat) (q : ℚ) : List Nat := List.ofFn (f32 q)

/-- The twelve bytes written for one `Vector3`. -/
def vector3Bytes (f32 : ℚ → Fin 4 → Nat) (v : Vector3) : List Nat :=
  floatBytes f32 v.x ++ floatBytes f32 v.y ++ floatBytes f32 v.z

/-- The state of the export: the bytes in the stream and the counter
`triCount`. -/
structure STLFile where
  bytes : List Nat
  triCount : Nat

/-- The bytes one call of the lambda `WriteTri` writes: the zero normal, the
three vertices and the zero attribute. -/
def triRecord (f32 : ℚ → Fin 4 → Nat) (v1 v2 v3 : Vector3) : List Nat :=
  (floatBytes f32 0 ++ floatBytes f32 0 ++ floatBytes f32 0) ++ vector3Bytes f32 v1 ++
    vector3Bytes f32 v2 ++ vector3Bytes f32 v3 ++ u16le 0

/-- The lambda `WriteTri`: append the record, increment the 32-bit counter. -/
def WriteTri (f32 : ℚ → Fin 4 → Nat) (out : STLFile) (v1 v2 v3 : Vector3) : STLFile :=
  { bytes := out.bytes ++ triRecord f32 v1 v2 v3
    triCount := (out.triCount + 1) % 4294967296 }

/-- The corner array `c[8]` of a block. -/
def cubeCorners (b : Block) : List Vector3 :=
  let p := b.position
  let dx := b.size.x / 2
  let dy := b.size.y / 2
  let dz := b.size.z / 2
  [⟨p.x - dx, p.y - dy, p.z - dz⟩, ⟨p.x + dx, p.y - dy, p.z - dz⟩,
   ⟨p.x + dx, p.y + dy, p.z - dz⟩, ⟨p.x - dx, p.y + dy, p.z - dz⟩,
   ⟨p.x - dx, p.y - dy, p.z + dz⟩, ⟨p.x + dx, p.y - dy, p.z + dz⟩,
   ⟨p.x + dx, p.y + dy, p.z + dz⟩, ⟨p.x - dx, p.y + dy, p.z + dz⟩]

/-- The index table `f[12][3]`. -/
def cubeFaces : List (Nat × Nat × Nat) :=
  [(0, 2, 1), (0, 3, 2), (1, 2, 6), (1, 6, 5), (4, 5, 6), (4, 6, 7),
   (0, 4, 7), (0, 7, 3), (2, 3, 7), (2, 7, 6), (0, 1, 5), (0, 5, 4)]

/-- The body of the export loop for one block. -/
def exportBlock (f32 : ℚ → Fin 4 → Nat) (out : STLFile) (b : Block) : STLFile :=
  if !b.visible || b.type != ShapeType.SHAPE_CUBE then out
  else
    cubeFaces.foldl
      (fun o f =>
        WriteTri f32 o ((cubeCorners b).getD f.1 ⟨0, 0, 0⟩)
          ((cubeCorners b).getD f.2.1 ⟨0, 0, 0⟩) ((cubeCorners b).getD f.2.2 ⟨0, 0, 0⟩))
      out

/-- The array `char header[80]`: the text, then zero bytes. -/
def stlHeader : List Nat :=
  "RayCAD_v8_Professional_Binary_STL_Export_ZBOOK".data.map Char.toNat ++ List.replicate 34 0

/-- `ExportSTL`. `opens` tells whether the output file could be opened; the
result is the content of the file, if any, and the state after the log call. The
final `seekp(80)` and `write` overwrite the bytes 80 to 83. -/
def ExportSTL (f32 : ℚ → Fin 4 → Nat) (opens : Bool) (s : AppState) :
    Option (List Nat) × AppState :=
  if !opens then (none, s)
  else
    let out0 : STLFile := { bytes := stlHeader ++ u32le 0, triCount := 0 }
    let out1 := s.currentPartBlocks.foldl (exportBlock f32) out0
    let patched := out1.bytes.take 80 ++ u32le out1.triCount ++ out1.bytes.drop 84
    (some patched,
      Log ("STL Exported Successfully (" ++ toString out1.triCount ++ " triangles)") s)

/-- The triangle records the export loop writes for one block. -/
def blockRecords (f32 : ℚ → Fin 4 → Nat) (b : Block) : List (List Nat) :=
  if !b.visible || b.type != ShapeType.SHAPE_CUBE then []
  else
    cubeFaces.map fun f =>
      triRecord f32 ((cubeCorners b).getD f.1 ⟨0, 0, 0⟩)
        ((cubeCorners b).getD f.2.1 ⟨0, 0, 0⟩) ((cubeCorners b).getD f.2.2 ⟨0, 0, 0⟩)

/-- A scene of three visible cubes and one invisible cube. -/
def exportDemo : AppState :=
  { initState with currentPartBlocks := [cubeA, cubeB, ghostA, cubeOnTop] }

/-! ## Binary32 arithmetic

Where the rounding of `float` decides a property, the physics step is read in
binary32: every arithmetic operation is followed by `fl32`, rounding to the
nearest binary32 value, ties to even, each operation on its own (a product and
the sum that takes it are rounded separately). Subnormal values are rounded on
the grid of `2^(-149)`. Only finite values are modelled: magnitudes from `2^128`
on, where the hardware gives infinity, are outside the model, and a statement
that admits them carries a bound on its inputs (`Moderate32`). -/

/-- Rounding to the nearest integer, ties to the even one. -/
def roundHalfEven (x : ℚ) : ℤ :=
  if x - ⌊x⌋ < 1 / 2 then ⌊x⌋
  else if 1 / 2 < x - ⌊x⌋ then ⌊x⌋ + 1
  else if ⌊x⌋ % 2 = 0 then ⌊x⌋
  else ⌊x⌋ + 1

/-- Bit length minus one by repeated halving; `f` bounds the number of
halvings. -/
def log2Fuel : ℕ → ℕ → ℕ
  | 0, _ => 0
  | f + 1, n => if 2 ≤ n then log2Fuel f (n / 2) + 1 else 0

/-- The exponent `⌊log₂ n⌋` of a positive natural number. -/
def natLog2 (n : ℕ) : ℕ := log2Fuel n n

/-- The binary exponent `⌊log₂ |q|⌋` of a non-zero rational, from the bit lengths
of its numerator and denominator. -/
def log2Floor (q : ℚ) : ℤ :=
  if |q| < 2 ^ ((natLog2 q.num.natAbs : ℤ) - (natLog2 q.den : ℤ)) then
    (natLog2 q.num.natAbs : ℤ) - (natLog2 q.den : ℤ) - 1
  else (natLog2 q.num.natAbs : ℤ) - (natLog2 q.den : ℤ)

/-- The binary exponent used for `q` in binary32: `⌊log₂ |q|⌋`, not below `-126`
(the subnormal range). -/
def expo32 (q : ℚ) : ℤ := max (log2Floor q) (-126)

/-- Rounding to binary32: the nearest multiple of `2^(expo32 q - 23)`, ties to
the even multiple. -/
def fl32 (q : ℚ) : ℚ := (roundHalfEven (q / 2 ^ (expo32 q - 23)) : ℚ) * 2 ^ (expo32 q - 23)

/-- The constant `9.8f`. -/
def gravity32 : ℚ := fl32 (98 / 10)

/-- The constant `0.016f`. -/
def dtCap32 : ℚ := fl32 (16 / 1000)

/-- `CheckCollision` in binary32: the difference, the sum and the halving are
each rounded; `fabsf` is exact. -/
def CheckCollision32 (posA sizeA posB sizeB : Vector3) : Bool :=
  let x := decide (|fl32 (posA.x - posB.x)| < fl32 (fl32 (sizeA.x + sizeB.x) / 2))
  let y := decide (|fl32 (posA.y - posB.y)| < fl32 (fl32 (sizeA.y + sizeB.y) / 2))
  let z := decide (|fl32 (posA.z - posB.z)| < fl32 (fl32 (sizeA.z + sizeB.z) / 2))
  x && y && z

/-- Lines 142 to 150 in binary32. -/
def integrateBlock32 (dt : ℚ) (b : Block) : Block :=
  let vy := fl32 (b.velocity.y - fl32 (gravity32 * dt))
  let b1 : Block := { b with velocity := { b.velocity with y := vy } }
  let b2 : Block :=
    { b1 with position := { b1.position with y := fl32 (b1.position.y + fl32 (b1.velocity.y * dt)) } }
  if fl32 (b2.position.y - fl32 (b2.size.y / 2)) < 0 then
    { b2 with
      position := { b2.position with y := fl32 (b2.size.y / 2) }
      velocity := { b2.velocity with y := 0 }
      isSleeping := true }
  else b2

/-- Body of the inner loop in binary32. -/
def collideWith32 (b other : Block) : Block :=
  if b.id = other.id then b
  else if CheckCollision32 b.position b.size other.position other.size then
    if b.position.y > other.position.y then
      { b with
        position :=
          { b.position with
            y := fl32 (fl32 (other.position.y + fl32 (other.size.y / 2)) + fl32 (b.size.y / 2)) }
        velocity := { b.velocity with y := 0 }
        isSleeping := true }
    else b
  else b

/-- One iteration of the inner loop in binary32. -/
def innerStep32 (i : Nat) (scene : List Block) (j : Nat) : List Block :=
  match scene[i]?, scene[j]? with
  | some b, some other => scene.set i (collideWith32 b other)
  | _, _ => scene

/-- The inner loop in binary32. -/
def innerLoop32 (i : Nat) (scene : List Block) : List Block :=
  (List.range scene.length).foldl (innerStep32 i) scene

/-- One iteration of the outer loop in binary32. -/
def stepBlock32 (dt : ℚ) (i : Nat) (scene : List Block) : List Block :=
  match scene[i]? with
  | none => scene
  | some b =>
    if b.isSleeping || !b.visible then scene
    else innerLoop32 i (scene.set i (integrateBlock32 dt b))

/-- The outer loop in binary32. -/
def physicsPass32 (dt : ℚ) (scene : List Block) : List Block :=
  (List.range scene.length).foldl (fun sc i => stepBlock32 dt i sc) scene

/-- `UpdatePhysics` in binary32; `frameTime` is the `float` returned by
`GetFrameTime()`. -/
def UpdatePhysics32 (frameTime : ℚ) (s : AppState) : AppState :=
  if !s.settings.physics then s
  else
    let dt := if frameTime > dtCap32 then dtCap32 else frameTime
    { s with currentPartBlocks := physicsPass32 dt s.currentPartBlocks }

/-- The time step `UpdatePhysics32` integrates with for the frame time `t`. -/
def clampDt32 (t : ℚ) : ℚ := if t > dtCap32 then dtCap32 else t

/-- The fields of `b` that the physics step reads have magnitude at most `2^100`.
With such blocks and a frame time `t ≥ 0` every binary32 operation of a step has
a finite result (no overflow to infinity), the result that `fl32` gives. -/
def Moderate32 (b : Block) : Prop :=
  |b.position.x| ≤ 2 ^ 100 ∧ |b.position.y| ≤ 2 ^ 100 ∧ |b.position.z| ≤ 2 ^ 100 ∧
    |b.size.x| ≤ 2 ^ 100 ∧ |b.size.y| ≤ 2 ^ 100 ∧ |b.size.z| ≤ 2 ^ 100 ∧
    |b.velocity.y| ≤ 2 ^ 100

/-- The block `b` with `position.y` and `velocity.y` replaced. -/
def setYV (b : Block) (y v : ℚ) : Block :=
  { b with position := { b.position with y := y }, velocity := { b.velocity with y := v } }

/-- One binary32 integration step on the pair `(position.y, velocity.y)` of a
falling block. -/
def fallStep32 (dt : ℚ) (p : ℚ × ℚ) : ℚ × ℚ :=
  (fl32 (p.1 + fl32 (fl32 (p.2 - fl32 (gravity32 * dt)) * dt)),
    fl32 (p.2 - fl32 (gravity32 * dt)))

/-- An awake unit cube with zero velocity at height `2^42`. -/
def skyCube : Block := { dropCube with position := ⟨0, 4398046511104, 0⟩ }

/-- A session with physics enabled whose scene is the single `skyCube`. -/
def skyDemo : AppState := { dropDemo with currentPartBlocks := [skyCube] }

/-- A sleeping block at `x = -0.1f`, of size `(0.3f, 1, 1)`, centred at height
`0.5`. -/
def floatA : Block :=
  { cubeA with position := ⟨-fl32 (1 / 10), 1 / 2, 0⟩, size := ⟨fl32 (3 / 10), 1, 1⟩ }

/-- An awake block at `x = 0.1f`, of size `(0.1f, 1, 1)`, centred at height
`1.25`. -/
def floatB : Block :=
  { cubeA with
    id := 2
    position := ⟨fl32 (1 / 10), 5 / 4, 0⟩
    size := ⟨fl32 (1 / 10), 1, 1⟩
    isSleeping := false }

/-- A session with physics enabled whose scene is `floatA` and `floatB`. -/
def floatDemo : AppState := { stackDemo with currentPartBlocks := [floatA, floatB] }

/-- What a binary32 step does to the only block of a one-block scene (see
`physicsPass32_single`). -/
def soloStep32 (dt : ℚ) (b : Block) : Block :=
  if b.isSleeping || !b.visible then b else integrateBlock32 dt b

/-! ## Theorems -/

/-! ## Field lemmas -/

@[simp] theorem Log_currentPartBlocks (m : String) (s : AppState) :
    (Log m s).currentPartBlocks = s.currentPartBlocks := rfl
@[simp] theorem Log_undoStack (m : String) (s : AppState) :
    (Log m s).undoStack = s.undoStack := rfl
@[simp] theorem Log_undoIndex (m : String) (s : AppState) :
    (Log m s).undoIndex = s.undoIndex := rfl
@[simp] theorem Log_nextId (m : String) (s : AppState) :
    (Log m s).nextId = s.nextId := rfl
@[simp] theorem Log_settings (m : String) (s : AppState) :
    (Log m s).settings = s.settings := rfl
@[simp] theorem Log_currentColor (m : String) (s : AppState) :
    (Log m s).currentColor = s.currentColor := rfl

@[simp] theorem SaveUndoState_currentPartBlocks (s : AppState) :
    (SaveUndoState s).currentPartBlocks = s.currentPartBlocks := by
  unfold SaveUndoState; dsimp only; split_ifs <;> rfl
@[simp] theorem SaveUndoState_nextId (s : AppState) :
    (SaveUndoState s).nextId = s.nextId := by
  unfold SaveUndoState; dsimp only; split_ifs <;> rfl
@[simp] theorem SaveUndoState_consoleLog (s : AppState) :
    (SaveUndoState s).consoleLog = s.consoleLog := by
  unfold SaveUndoState; dsimp only; split_ifs <;> rfl
@[simp] theorem SaveUndoState_settings (s : AppState) :
    (SaveUndoState s).settings = s.settings := by
  unfold SaveUndoState; dsimp only; split_ifs <;> rfl
@[simp] theorem SaveUndoState_currentColor (s : AppState) :
    (SaveUndoState s).currentColor = s.currentColor := by
  unfold SaveUndoState; dsimp only; split_ifs <;> rfl

theorem pushedStack_length (s : AppState) (h : HistoryOk s) :
    ((pushedStack s).length : Int) = s.undoIndex + 2 := by
  obtain ⟨_, h | ⟨h0, h1⟩⟩ := h
  · simp [pushedStack, h.1, h.2]
  · simp only [pushedStack, List.length_append, List.length_take, List.length_singleton]
    omega

theorem SaveUndoState_undoStack (s : AppState) (h : HistoryOk s) :
    (SaveUndoState s).undoStack =
      if (pushedStack s).length > 50 then (pushedStack s).drop 1 else pushedStack s := by
  have hst : (if s.undoIndex < (s.undoStack.length : Int) - 1 then
      s.undoStack.take (s.undoIndex + 1).toNat else s.undoStack)
      = s.undoStack.take (s.undoIndex + 1).toNat := by
    split
    · rfl
    · rename_i hn
      symm
      apply List.take_of_length_le
      obtain ⟨_, h | ⟨h0, h1⟩⟩ := h
      · simp [h.1]
      · omega
  unfold SaveUndoState pushedStack
  dsimp only
  rw [hst]
  split <;> rfl

theorem SaveUndoState_undoIndex (s : AppState) (h : HistoryOk s) :
    (SaveUndoState s).undoIndex = ((SaveUndoState s).undoStack.length : Int) - 1 := by
  have hl := pushedStack_length s h
  have hs := SaveUndoState_undoStack s h
  have hi : (SaveUndoState s).undoIndex =
      if (pushedStack s).length > 50 then s.undoIndex else s.undoIndex + 1 := by
    have hst : (if s.undoIndex < (s.undoStack.length : Int) - 1 then
        s.undoStack.take (s.undoIndex + 1).toNat else s.undoStack)
        = s.undoStack.take (s.undoIndex + 1).toNat := by
      split
      · rfl
      · symm
        apply List.take_of_length_le
        obtain ⟨_, h | ⟨h0, h1⟩⟩ := h
        · simp [h.1]
        · omega
    unfold SaveUndoState pushedStack
    dsimp only
    rw [hst]
    split
    · simp
    · rfl
  rw [hs, hi]
  split
  · simp only [List.length_drop]; omega
  · omega

theorem SaveUndoState_HistoryOk (s : AppState) (h : HistoryOk s) :
    HistoryOk (SaveUndoState s) := by
  have hl := pushedStack_length s h
  have hs := SaveUndoState_undoStack s h
  have hi := SaveUndoState_undoIndex s h
  have hlen : (SaveUndoState s).undoStack.length ≤ 50 ∧ 1 ≤ (SaveUndoState s).undoStack.length := by
    rw [hs]
    obtain ⟨hc, h | ⟨h0, h1⟩⟩ := h
    · split
      · simp only [List.length_drop]; omega
      · omega
    · split
      · simp only [List.length_drop]; omega
      · omega
  refine ⟨hlen.1, Or.inr ⟨?_, ?_⟩⟩ <;> omega

theorem PerformUndo_undoStack (s : AppState) : (PerformUndo s).undoStack = s.undoStack := by
  unfold PerformUndo; split_ifs <;> rfl

theorem PerformUndo_nextId (s : AppState) : (PerformUndo s).nextId = s.nextId := by
  unfold PerformUndo; split_ifs <;> rfl

theorem PerformUndo_undoIndex (s : AppState) :
    (PerformUndo s).undoIndex = if s.undoIndex > 0 then s.undoIndex - 1 else s.undoIndex := by
  unfold PerformUndo; split_ifs <;> rfl

theorem PerformUndo_currentPartBlocks (s : AppState) :
    (PerformUndo s).currentPartBlocks =
      if s.undoIndex > 0 then s.undoStack.getD (s.undoIndex - 1).toNat [] else s.currentPartBlocks := by
  unfold PerformUndo; split_ifs <;> rfl

theorem PerformUndo_of_nonpos (s : AppState) (h : s.undoIndex ≤ 0) : PerformUndo s = s := by
  unfold PerformUndo
  rw [if_neg (by omega)]

theorem PerformUndo_HistoryOk (s : AppState) (h : HistoryOk s) : HistoryOk (PerformUndo s) := by
  unfold HistoryOk at *
  rw [PerformUndo_undoStack, PerformUndo_undoIndex]
  obtain ⟨hc, h | ⟨h0, h1⟩⟩ := h
  · refine ⟨hc, Or.inl ⟨h.1, ?_⟩⟩
    rw [if_neg (by omega)]; exact h.2
  · refine ⟨hc, Or.inr ?_⟩
    split_ifs <;> omega

theorem HistReachable_HistoryOk (s : AppState) (h : HistReachable s) : HistoryOk s := by
  induction h with
  | init s h1 h2 => exact ⟨by simp [h1], Or.inl ⟨h1, h2⟩⟩
  | save s _ ih => exact SaveUndoState_HistoryOk s ih
  | undo s _ ih => exact PerformUndo_HistoryOk s ih
  | mutate s t _ h1 h2 ih =>
    unfold HistoryOk at *
    rw [h1, h2]; exact ih

/-- C3. In every state reachable from the initial history by checkpoints, undos
and scene mutations the stack holds at most 50 snapshots, and when it is not
empty the cursor is a valid index into it. -/
theorem C3_history_invariant (s : AppState) (h : HistReachable s) :
    s.undoStack.length ≤ 50 ∧
      (s.undoStack ≠ [] → 0 ≤ s.undoIndex ∧ s.undoIndex < (s.undoStack.length : Int)) := by
  obtain ⟨hc, h | h⟩ := HistReachable_HistoryOk s h
  · exact ⟨hc, fun hne => absurd h.1 hne⟩
  · exact ⟨hc, fun _ => h⟩

theorem C3_history_invariant_witness :
    HistReachable (SaveUndoState initState) ∧
      ((SaveUndoState initState).undoStack.length ≤ 50 ∧
        ((SaveUndoState initState).undoStack ≠ [] →
          0 ≤ (SaveUndoState initState).undoIndex ∧
            (SaveUndoState initState).undoIndex <
              ((SaveUndoState initState).undoStack.length : Int))) :=
  ⟨HistReachable.save _ (HistReachable.init _ rfl rfl),
    C3_history_invariant _ (HistReachable.save _ (HistReachable.init _ rfl rfl))⟩

/-- C4. From a state that satisfies the history invariant (at most 50
snapshots; cursor `-1` on the empty stack, a valid index otherwise) a checkpoint
yields the first `undoIndex + 1` snapshots followed by the live scene, without
its oldest entry exactly when that sequence has more than 50 entries; the new
cursor is the last index, the snapshot under it is the live scene, and the live
scene is unchanged. -/
theorem C4_SaveUndoState_postcondition (s : AppState)
    (hcap : s.undoStack.length ≤ 50)
    (hempty : s.undoStack = [] → s.undoIndex = -1)
    (hcur : s.undoStack ≠ [] → 0 ≤ s.undoIndex ∧ s.undoIndex < (s.undoStack.length : Int)) :
    (SaveUndoState s).undoStack =
        (if (s.undoStack.take (s.undoIndex + 1).toNat ++ [s.currentPartBlocks]).length > 50 then
          (s.undoStack.take (s.undoIndex + 1).toNat ++ [s.currentPartBlocks]).drop 1
        else s.undoStack.take (s.undoIndex + 1).toNat ++ [s.currentPartBlocks]) ∧
      (SaveUndoState s).undoIndex = ((SaveUndoState s).undoStack.length : Int) - 1 ∧
      (SaveUndoState s).undoStack[(SaveUndoState s).undoIndex.toNat]? = some s.currentPartBlocks ∧
      (SaveUndoState s).currentPartBlocks = s.currentPartBlocks := by
  have hok : HistoryOk s := by
    refine ⟨hcap, ?_⟩
    by_cases he : s.undoStack = []
    · exact Or.inl ⟨he, hempty he⟩
    · exact Or.inr (hcur he)
  have hs := SaveUndoState_undoStack s hok
  have hi := SaveUndoState_undoIndex s hok
  have hl := pushedStack_length s hok
  refine ⟨hs, hi, ?_, SaveUndoState_currentPartBlocks s⟩
  have hlast : ∀ l : List (List Block), l ≠ [] → l[l.length - 1]? = l.getLast? := by
    intro l _
    rw [List.getLast?_eq_getElem?]
  have hne : (SaveUndoState s).undoStack ≠ [] := by
    intro h0
    have hlen : (SaveUndoState s).undoStack.length = 0 := by rw [h0]; rfl
    rw [hs] at hlen
    split at hlen
    · simp only [List.length_drop] at hlen; omega
    · obtain ⟨_, h | ⟨h1, _⟩⟩ := hok
      · rw [h.2] at hl; omega
      · omega
  have hidx : (SaveUndoState s).undoIndex.toNat = (SaveUndoState s).undoStack.length - 1 := by
    rw [hi]; omega
  rw [hidx, hlast _ hne, hs]
  unfold pushedStack
  split
  · rename_i hgt
    rw [List.getLast?_drop]
    rw [if_neg (by omega)]
    simp
  · simp

theorem C4_SaveUndoState_postcondition_witness :
    (SaveUndoState (sessionStart junkBlock)).undoStack =
        (if ((sessionStart junkBlock).undoStack.take ((sessionStart junkBlock).undoIndex + 1).toNat ++
              [(sessionStart junkBlock).currentPartBlocks]).length > 50 then
          ((sessionStart junkBlock).undoStack.take ((sessionStart junkBlock).undoIndex + 1).toNat ++
              [(sessionStart junkBlock).currentPartBlocks]).drop 1
        else (sessionStart junkBlock).undoStack.take ((sessionStart junkBlock).undoIndex + 1).toNat ++
              [(sessionStart junkBlock).currentPartBlocks]) ∧
      (SaveUndoState (sessionStart junkBlock)).undoIndex =
        ((SaveUndoState (sessionStart junkBlock)).undoStack.length : Int) - 1 ∧
      (SaveUndoState (sessionStart junkBlock)).undoStack[
          (SaveUndoState (sessionStart junkBlock)).undoIndex.toNat]? =
        some (sessionStart junkBlock).currentPartBlocks ∧
      (SaveUndoState (sessionStart junkBlock)).currentPartBlocks =
        (sessionStart junkBlock).currentPartBlocks :=
  C4_SaveUndoState_postcondition (sessionStart junkBlock) (by decide) (by decide) (by decide)

/-- Postcondition of an undo with the cursor strictly inside the stack. -/
theorem PerformUndo_inside (s : AppState)
    (hpos : 0 < s.undoIndex) (hlt : s.undoIndex < (s.undoStack.length : Int)) :
    (PerformUndo s).undoIndex = s.undoIndex - 1 ∧
      s.undoStack[(PerformUndo s).undoIndex.toNat]? = some (PerformUndo s).currentPartBlocks ∧
      (PerformUndo s).undoStack = s.undoStack ∧
      (PerformUndo s).nextId = s.nextId := by
  have hi : (PerformUndo s).undoIndex = s.undoIndex - 1 := by
    rw [PerformUndo_undoIndex, if_pos hpos]
  refine ⟨hi, ?_, PerformUndo_undoStack s, PerformUndo_nextId s⟩
  rw [hi, PerformUndo_currentPartBlocks, if_pos hpos]
  have hin : (s.undoIndex - 1).toNat < s.undoStack.length := by omega
  rw [List.getD_eq_getElem _ _ hin, List.getElem?_eq_getElem hin]

/-- C5. With `0 < undoIndex < undoStack.size()` an undo lowers the cursor by
exactly one, makes the live scene the snapshot stored under the new cursor, and
leaves the stack and the id counter unchanged. -/
theorem C5_PerformUndo_postcondition (s : AppState)
    (hpos : 0 < s.undoIndex) (hlt : s.undoIndex < (s.undoStack.length : Int)) :
    (PerformUndo s).undoIndex = s.undoIndex - 1 ∧
      s.undoStack[(PerformUndo s).undoIndex.toNat]? = some (PerformUndo s).currentPartBlocks ∧
      (PerformUndo s).undoStack = s.undoStack ∧
      (PerformUndo s).nextId = s.nextId :=
  PerformUndo_inside s hpos hlt

theorem C5_PerformUndo_postcondition_witness :
    (PerformUndo (SaveUndoState (sessionStart junkBlock))).undoIndex =
        (SaveUndoState (sessionStart junkBlock)).undoIndex - 1 ∧
      (SaveUndoState (sessionStart junkBlock)).undoStack[
          (PerformUndo (SaveUndoState (sessionStart junkBlock))).undoIndex.toNat]? =
        some (PerformUndo (SaveUndoState (sessionStart junkBlock))).currentPartBlocks ∧
      (PerformUndo (SaveUndoState (sessionStart junkBlock))).undoStack =
        (SaveUndoState (sessionStart junkBlock)).undoStack ∧
      (PerformUndo (SaveUndoState (sessionStart junkBlock))).nextId =
        (SaveUndoState (sessionStart junkBlock)).nextId :=
  C5_PerformUndo_postcondition (SaveUndoState (sessionStart junkBlock)) (by decide) (by decide)

/-- C6. With `undoIndex <= 0` any number `k` of undos (in particular every
`k >= 1`) leaves the live scene, the stack, the cursor and the console log
unchanged. -/
theorem C6_PerformUndo_bottom_noop (s : AppState) (k : Nat) (h : s.undoIndex ≤ 0) :
    (PerformUndo^[k] s).currentPartBlocks = s.currentPartBlocks ∧
      (PerformUndo^[k] s).undoStack = s.undoStack ∧
      (PerformUndo^[k] s).undoIndex = s.undoIndex ∧
      (PerformUndo^[k] s).consoleLog = s.consoleLog := by
  rw [Function.iterate_fixed (PerformUndo_of_nonpos s h) k]
  exact ⟨rfl, rfl, rfl, rfl⟩

theorem C6_PerformUndo_bottom_noop_witness :
    (sessionStart junkBlock).undoIndex ≤ 0 ∧
      ((PerformUndo^[3] (sessionStart junkBlock)).currentPartBlocks =
          (sessionStart junkBlock).currentPartBlocks ∧
        (PerformUndo^[3] (sessionStart junkBlock)).undoStack = (sessionStart junkBlock).undoStack ∧
        (PerformUndo^[3] (sessionStart junkBlock)).undoIndex = (sessionStart junkBlock).undoIndex ∧
        (PerformUndo^[3] (sessionStart junkBlock)).consoleLog =
          (sessionStart junkBlock).consoleLog) :=
  ⟨by decide, C6_PerformUndo_bottom_noop (sessionStart junkBlock) 3 (by decide)⟩

/-- C1, evaluated on the code. Right after session start the live scene is the
single baseplate block; a checkpoint, any mutation and one undo leave the live
scene empty, not equal to the scene the checkpoint saved. The same happens with
the `stairs` command and with the spiral plug-in, which both checkpoint before
they append. -/
theorem C1_undo_after_checkpoint_overshoots :
    (sessionStart junkBlock).currentPartBlocks.length = 1 ∧
      (∀ (scene : List Block) (n : Int),
        (PerformUndo (runEdit (SaveUndoState (sessionStart junkBlock))
          (EditOp.mutate scene n))).currentPartBlocks = []) ∧
      (PerformUndo (RunCommand (fun _ => junkBlock) "stairs"
        (sessionStart junkBlock))).currentPartBlocks = [] ∧
      (PerformUndo (RunPlugin (fun _ => 0) (fun _ => 0) (fun _ => junkBlock) hostTable
        (sessionStart junkBlock))).currentPartBlocks = [] := by
  refine ⟨by decide, ?_, by decide, by decide⟩
  intro scene n
  rfl

/-- A checkpoint taken with the cursor on the top of a stack of fewer than 50
snapshots appends the live scene and moves the cursor onto it. -/
theorem SaveUndoState_at_top (s : AppState) (n : Nat)
    (hlen : s.undoStack.length = n + 1) (hidx : s.undoIndex = n) (hn : n + 1 < 50) :
    (SaveUndoState s).undoStack = s.undoStack ++ [s.currentPartBlocks] ∧
      (SaveUndoState s).undoIndex = n + 1 := by
  have hok : HistoryOk s := ⟨by omega, Or.inr ⟨by omega, by omega⟩⟩
  have hs := SaveUndoState_undoStack s hok
  have hi := SaveUndoState_undoIndex s hok
  have hp : pushedStack s = s.undoStack ++ [s.currentPartBlocks] := by
    unfold pushedStack
    rw [List.take_of_length_le (by omega)]
  rw [hp, if_neg (by simp only [List.length_append, List.length_singleton]; omega)] at hs
  refine ⟨hs, ?_⟩
  rw [hi, hs]
  simp only [List.length_append, List.length_singleton]
  omega

/-- Running a trace of checkpoints and mutations from a state whose cursor is on
the top of the stack keeps the cursor on the top, appends one snapshot per
checkpoint and keeps the bottom snapshot, as long as the cap is not reached. -/
theorem runEdit_trace_top (ops : List EditOp) :
    ∀ (s : AppState) (n : Nat), s.undoStack.length = n + 1 → s.undoIndex = n →
      n + checkpoints ops + 1 ≤ 50 →
      (ops.foldl runEdit s).undoStack.length = n + checkpoints ops + 1 ∧
        (ops.foldl runEdit s).undoIndex = ((n + checkpoints ops : Nat) : Int) ∧
        (ops.foldl runEdit s).undoStack[0]? = s.undoStack[0]? := by
  induction ops with
  | nil =>
    intro s n hlen hidx _
    simp [checkpoints, hlen, hidx]
  | cons op ops ih =>
    intro s n hlen hidx hcap
    cases op with
    | checkpoint =>
      simp only [checkpoints] at hcap ⊢
      obtain ⟨hs, hi⟩ := SaveUndoState_at_top s n hlen hidx (by omega)
      have h := ih (SaveUndoState s) (n + 1)
        (by rw [hs]; simp only [List.length_append, List.length_singleton]; omega)
        (by rw [hi]; push_cast; rfl) (by omega)
      simp only [List.foldl_cons, runEdit]
      refine ⟨by omega, ?_, ?_⟩
      · rw [h.2.1]; congr 1; omega
      · rw [h.2.2, hs, List.getElem?_append_left (by omega)]
    | mutate scene m =>
      simp only [checkpoints] at hcap ⊢
      simp only [List.foldl_cons, runEdit]
      exact ih _ n hlen hidx hcap

/-- Repeated undo from a cursor inside the stack: `k` undos, `k` at most the
cursor, lower the cursor by `k`, keep the stack, and after the first one the
live scene is the snapshot under the cursor. -/
theorem PerformUndo_iterate (s : AppState) (hlt : s.undoIndex < (s.undoStack.length : Int)) :
    ∀ k : Nat, (k : Int) ≤ s.undoIndex →
      (PerformUndo^[k] s).undoIndex = s.undoIndex - k ∧
        (PerformUndo^[k] s).undoStack = s.undoStack ∧
        (1 ≤ k → s.undoStack[(s.undoIndex - k).toNat]? =
          some (PerformUndo^[k] s).currentPartBlocks) := by
  intro k
  induction k with
  | zero =>
    intro _
    simp
  | succ k ih =>
    intro hk
    obtain ⟨h1, h2, _⟩ := ih (by omega)
    rw [Function.iterate_succ_apply']
    obtain ⟨c1, c2, c3, _⟩ := PerformUndo_inside (PerformUndo^[k] s)
      (by rw [h1]; omega) (by rw [h1, h2]; omega)
    refine ⟨by rw [c1, h1]; push_cast; omega, by rw [c3, h2], fun _ => ?_⟩
    rw [← c2, c1, h1, h2]
    congr 2
    push_cast
    omega

theorem sessionStart_undoStack (u : Block) : (sessionStart u).undoStack = [[]] := rfl

theorem sessionStart_undoIndex (u : Block) : (sessionStart u).undoIndex = 0 := rfl

/-- For a trace with `N` checkpoints, `1 ≤ N ≤ 49`, interleaved with arbitrary
mutations and started right after session start, `N` undos leave the cursor at
0 and the live scene equal to the snapshot at the bottom of the stack, which is
still the snapshot that was at the bottom right after session start. -/
theorem undo_all_restores_bottom_snapshot (u : Block) (ops : List EditOp)
    (h1 : 1 ≤ checkpoints ops) (h49 : checkpoints ops ≤ 49) :
    (PerformUndo^[checkpoints ops] (ops.foldl runEdit (sessionStart u))).undoIndex = 0 ∧
      (PerformUndo^[checkpoints ops] (ops.foldl runEdit (sessionStart u))).undoStack[0]? =
        (sessionStart u).undoStack[0]? ∧
      (PerformUndo^[checkpoints ops] (ops.foldl runEdit (sessionStart u))).undoStack[0]? =
        some (PerformUndo^[checkpoints ops]
          (ops.foldl runEdit (sessionStart u))).currentPartBlocks := by
  obtain ⟨hl, hi, hb⟩ := runEdit_trace_top ops (sessionStart u) 0
    (by rw [sessionStart_undoStack]; rfl) (by rw [sessionStart_undoIndex]; rfl) (by omega)
  obtain ⟨k1, k2, k3⟩ := PerformUndo_iterate (ops.foldl runEdit (sessionStart u))
    (by rw [hi, hl]; push_cast; omega) (checkpoints ops) (by rw [hi]; push_cast; omega)
  have hz : ((ops.foldl runEdit (sessionStart u)).undoIndex - (checkpoints ops : Int)).toNat = 0 := by
    rw [hi]; push_cast; omega
  refine ⟨by rw [k1, hi]; push_cast; omega, by rw [k2, hb], ?_⟩
  rw [k2, ← k3 h1, hz]

set_option maxRecDepth 20000 in
/-- With 51 checkpoints after session start the cap of 50 snapshots has evicted
every snapshot older than the mutation made after the first checkpoint: 51
undos end in the mutated scene. -/
theorem undo_all_past_cap :
    (PerformUndo^[checkpoints
          (EditOp.checkpoint :: EditOp.mutate [junkBlock, junkBlock] 9 ::
            List.replicate 50 EditOp.checkpoint)]
        ((EditOp.checkpoint :: EditOp.mutate [junkBlock, junkBlock] 9 ::
            List.replicate 50 EditOp.checkpoint).foldl runEdit
          (sessionStart junkBlock))).currentPartBlocks = [junkBlock, junkBlock] := by
  decide

/-- C2, evaluated on the code. Right after session start the live scene is the
single baseplate block. For every trace with `N` checkpoints, `1 ≤ N ≤ 49`,
interleaved with arbitrary mutations and started there, `N` undos leave the live
scene empty, not equal to the session-start scene: the snapshot at the bottom of
the stack is the one `GenerateBaseplate` took before it appended the baseplate,
and the last `PerformUndo` steps back onto it. -/
theorem C2_undo_all_loses_baseplate (u : Block) (ops : List EditOp)
    (h1 : 1 ≤ checkpoints ops) (h49 : checkpoints ops ≤ 49) :
    (sessionStart u).currentPartBlocks.length = 1 ∧
      (PerformUndo^[checkpoints ops] (ops.foldl runEdit (sessionStart u))).currentPartBlocks =
        [] ∧
      (PerformUndo^[checkpoints ops] (ops.foldl runEdit (sessionStart u))).currentPartBlocks ≠
        (sessionStart u).currentPartBlocks := by
  obtain ⟨_, hb, hc⟩ := undo_all_restores_bottom_snapshot u ops h1 h49
  have hlen : (sessionStart u).currentPartBlocks.length = 1 := rfl
  have hempty : (PerformUndo^[checkpoints ops]
      (ops.foldl runEdit (sessionStart u))).currentPartBlocks = [] := by
    rw [hc, sessionStart_undoStack] at hb
    exact Option.some.inj hb
  refine ⟨hlen, hempty, fun h => ?_⟩
  rw [hempty] at h
  rw [← h] at hlen
  exact absurd hlen (by decide)

theorem C2_undo_all_loses_baseplate_witness :
    (sessionStart junkBlock).currentPartBlocks.length = 1 ∧
      (PerformUndo^[checkpoints [EditOp.checkpoint, EditOp.mutate [junkBlock] 5, EditOp.checkpoint]]
        ([EditOp.checkpoint, EditOp.mutate [junkBlock] 5, EditOp.checkpoint].foldl runEdit
          (sessionStart junkBlock))).currentPartBlocks = [] ∧
      (PerformUndo^[checkpoints [EditOp.checkpoint, EditOp.mutate [junkBlock] 5, EditOp.checkpoint]]
        ([EditOp.checkpoint, EditOp.mutate [junkBlock] 5, EditOp.checkpoint].foldl runEdit
          (sessionStart junkBlock))).currentPartBlocks ≠
        (sessionStart junkBlock).currentPartBlocks :=
  C2_undo_all_loses_baseplate junkBlock
    [EditOp.checkpoint, EditOp.mutate [junkBlock] 5, EditOp.checkpoint] (by decide) (by decide)

/-! ### Physics step: what a pass leaves alone -/

theorem map_set_of_eq {α : Type} (f : Block → α) :
    ∀ (l : List Block) (i : Nat) (a b : Block), l[i]? = some b → f a = f b →
      (l.set i a).map f = l.map f := by
  intro l
  induction l with
  | nil => intro i a b h _; simp at h
  | cons x xs ih =>
    intro i a b h hab
    cases i with
    | zero =>
      simp only [List.getElem?_cons_zero, Option.some.injEq] at h
      simp [List.set, hab, h]
    | succ i =>
      simp only [List.getElem?_cons_succ] at h
      simp only [List.set, List.map_cons, ih i a b h hab]

theorem innerStep_getElem?_ne (i j k : Nat) (scene : List Block) (h : i ≠ k) :
    (innerStep i scene j)[k]? = scene[k]? := by
  unfold innerStep
  split
  · exact List.getElem?_set_ne h
  · rfl

theorem innerStep_map {α : Type} (f : Block → α) (hf : ∀ b other, f (collideWith b other) = f b)
    (i j : Nat) (scene : List Block) : (innerStep i scene j).map f = scene.map f := by
  unfold innerStep
  split
  · rename_i b other hb _
    exact map_set_of_eq f scene i _ b hb (hf b other)
  · rfl

theorem foldl_innerStep_getElem?_ne (i k : Nat) (h : i ≠ k) (js : List Nat) :
    ∀ scene : List Block, (js.foldl (innerStep i) scene)[k]? = scene[k]? := by
  induction js with
  | nil => intro scene; rfl
  | cons j js ih =>
    intro scene
    rw [List.foldl_cons, ih, innerStep_getElem?_ne i j k scene h]

theorem foldl_innerStep_map {α : Type} (f : Block → α)
    (hf : ∀ b other, f (collideWith b other) = f b) (i : Nat) (js : List Nat) :
    ∀ scene : List Block, (js.foldl (innerStep i) scene).map f = scene.map f := by
  induction js with
  | nil => intro scene; rfl
  | cons j js ih =>
    intro scene
    rw [List.foldl_cons, ih, innerStep_map f hf]

theorem innerLoop_getElem?_ne (i k : Nat) (h : i ≠ k) (scene : List Block) :
    (innerLoop i scene)[k]? = scene[k]? :=
  foldl_innerStep_getElem?_ne i k h _ scene

theorem innerLoop_map {α : Type} (f : Block → α)
    (hf : ∀ b other, f (collideWith b other) = f b) (i : Nat) (scene : List Block) :
    (innerLoop i scene).map f = scene.map f :=
  foldl_innerStep_map f hf i _ scene

/-- An iteration of the outer loop for index `i` leaves every other index alone. -/
theorem stepBlock_getElem?_ne (dt : ℚ) (i k : Nat) (h : i ≠ k) (scene : List Block) :
    (stepBlock dt i scene)[k]? = scene[k]? := by
  unfold stepBlock
  split
  · rfl
  · split
    · rfl
    · rw [innerLoop_getElem?_ne i k h, List.getElem?_set_ne h]

/-- An iteration of the outer loop skips a sleeping block. -/
theorem stepBlock_of_sleeping (dt : ℚ) (i : Nat) (scene : List Block) (b : Block)
    (hb : scene[i]? = some b) (hs : b.isSleeping = true) : stepBlock dt i scene = scene := by
  unfold stepBlock
  rw [hb]
  simp [hs]

/-- A field that neither the integration nor the collision response writes has
the same value at every index after an iteration of the outer loop. -/
theorem stepBlock_map {α : Type} (f : Block → α)
    (hi : ∀ dt b, f (integrateBlock dt b) = f b)
    (hf : ∀ b other, f (collideWith b other) = f b)
    (dt : ℚ) (i : Nat) (scene : List Block) : (stepBlock dt i scene).map f = scene.map f := by
  unfold stepBlock
  split
  · rfl
  · rename_i b hb
    split
    · rfl
    · rw [innerLoop_map f hf, map_set_of_eq f scene i _ b hb (hi dt b)]

theorem foldl_stepBlock_sleeping (dt : ℚ) (k : Nat) (b : Block) (hs : b.isSleeping = true)
    (is : List Nat) :
    ∀ scene : List Block, scene[k]? = some b →
      (is.foldl (fun sc i => stepBlock dt i sc) scene)[k]? = some b := by
  induction is with
  | nil => intro scene h; exact h
  | cons i is ih =>
    intro scene h
    rw [List.foldl_cons]
    apply ih
    by_cases hik : i = k
    · subst hik
      rw [stepBlock_of_sleeping dt i scene b h hs]; exact h
    · rw [stepBlock_getElem?_ne dt i k hik]; exact h

theorem foldl_stepBlock_map {α : Type} (f : Block → α)
    (hi : ∀ dt b, f (integrateBlock dt b) = f b)
    (hf : ∀ b other, f (collideWith b other) = f b) (dt : ℚ) (is : List Nat) :
    ∀ scene : List Block, (is.foldl (fun sc i => stepBlock dt i sc) scene).map f = scene.map f := by
  induction is with
  | nil => intro scene; rfl
  | cons i is ih =>
    intro scene
    rw [List.foldl_cons, ih, stepBlock_map f hi hf]

/-- A pass of the outer loop leaves a sleeping block as it is. -/
theorem physicsPass_sleeping (dt : ℚ) (scene : List Block) (k : Nat) (b : Block)
    (hb : scene[k]? = some b) (hs : b.isSleeping = true) :
    (physicsPass dt scene)[k]? = some b :=
  foldl_stepBlock_sleeping dt k b hs _ scene hb

/-- A pass of the outer loop keeps, index by index, every field that neither
the integration nor the collision response writes. -/
theorem physicsPass_map {α : Type} (f : Block → α)
    (hi : ∀ dt b, f (integrateBlock dt b) = f b)
    (hf : ∀ b other, f (collideWith b other) = f b) (dt : ℚ) (scene : List Block) :
    (physicsPass dt scene).map f = scene.map f :=
  foldl_stepBlock_map f hi hf dt _ scene

theorem integrateBlock_id (dt : ℚ) (b : Block) : (integrateBlock dt b).id = b.id := by
  unfold integrateBlock
  dsimp only
  split <;> rfl

theorem collideWith_id (b other : Block) : (collideWith b other).id = b.id := by
  unfold collideWith
  split_ifs <;> rfl

theorem UpdatePhysics_map_id (t : ℚ) (s : AppState) :
    (UpdatePhysics t s).currentPartBlocks.map Block.id = s.currentPartBlocks.map Block.id := by
  unfold UpdatePhysics
  split
  · rfl
  · exact physicsPass_map Block.id integrateBlock_id collideWith_id _ _

theorem UpdatePhysics_sleeping (t : ℚ) (s : AppState) (k : Nat) (b : Block)
    (hb : s.currentPartBlocks[k]? = some b) (hs : b.isSleeping = true) :
    (UpdatePhysics t s).currentPartBlocks[k]? = some b := by
  unfold UpdatePhysics
  split
  · exact hb
  · exact physicsPass_sleeping _ _ k b hb hs

theorem foldl_UpdatePhysics_sleeping (k : Nat) (b : Block) (hs : b.isSleeping = true)
    (ts : List ℚ) :
    ∀ s : AppState, s.currentPartBlocks[k]? = some b →
      (ts.foldl (fun st t => UpdatePhysics t st) s).currentPartBlocks[k]? = some b := by
  induction ts with
  | nil => intro s h; exact h
  | cons t ts ih =>
    intro s h
    rw [List.foldl_cons]
    exact ih _ (UpdatePhysics_sleeping t s k b h hs)

/-- C10. A block that is asleep before `UpdatePhysics()` is identical after the
step, at its place in the scene, whatever the frame time `t` and the other
blocks; hence it is identical after any sequence of consecutive steps
(`frameTimes` lists the frame time of each step), no wake-up in between. -/
theorem C10_sleeping_block_never_moves (t : ℚ) (frameTimes : List ℚ) (s : AppState) (k : Nat)
    (b : Block) (hb : s.currentPartBlocks[k]? = some b) (hs : b.isSleeping = true) :
    (UpdatePhysics t s).currentPartBlocks[k]? = some b ∧
      (frameTimes.foldl (fun st t => UpdatePhysics t st) s).currentPartBlocks[k]? = some b :=
  ⟨UpdatePhysics_sleeping t s k b hb hs, foldl_UpdatePhysics_sleeping k b hs frameTimes s hb⟩

theorem C10_sleeping_block_never_moves_witness :
    (UpdatePhysics (1 / 60) stackDemo).currentPartBlocks[0]? = some cubeA ∧
      ([1 / 60, 1 / 100, 1].foldl (fun st t => UpdatePhysics t st)
        stackDemo).currentPartBlocks[0]? = some cubeA :=
  C10_sleeping_block_never_moves (1 / 60) [1 / 60, 1 / 100, 1] stackDemo 0 cubeA rfl rfl

/-! ### Id allocation -/

theorem wrapInt32_of_range (n : Int) (h1 : -2147483648 ≤ n) (h2 : n ≤ INT_MAX) :
    wrapInt32 n = n := by
  unfold wrapInt32
  unfold INT_MAX at h2
  omega

theorem range_succ_map_add (c : Int) (n : Nat) :
    (List.range (n + 1)).map (fun k : Nat => c + (k : Int)) =
      c :: (List.range n).map (fun k : Nat => c + 1 + (k : Int)) := by
  rw [List.range_succ_eq_map, List.map_cons, List.map_map]
  simp only [Nat.cast_zero, add_zero, List.cons.injEq, true_and]
  apply List.map_congr_left
  intro k _
  simp only [Function.comp_apply, Nat.succ_eq_add_one, Nat.cast_add, Nat.cast_one]
  omega

/-- A loop whose every iteration appends one block carrying the current counter
value and then increments the counter appends, over `is.length` iterations
without overflow, blocks with consecutive ids, and advances the counter by the
number of iterations. -/
theorem foldl_append_ids (step : AppState → Nat → AppState)
    (hstep : ∀ s i, ∃ b : Block, b.id = s.nextId ∧
      (step s i).currentPartBlocks = s.currentPartBlocks ++ [b] ∧
      (step s i).nextId = wrapInt32 (s.nextId + 1)) (is : List Nat) :
    ∀ s : AppState, -2147483648 ≤ s.nextId → s.nextId + (is.length : Int) ≤ INT_MAX →
      ∃ new : List Block,
        (is.foldl step s).currentPartBlocks = s.currentPartBlocks ++ new ∧
        new.map Block.id = (List.range is.length).map (fun k : Nat => s.nextId + (k : Int)) ∧
        (is.foldl step s).nextId = s.nextId + (is.length : Int) := by
  induction is with
  | nil =>
    intro s _ _
    exact ⟨[], by simp, by simp, by simp⟩
  | cons i is ih =>
    intro s hmin hmax
    obtain ⟨b, hb, hsc, hn⟩ := hstep s i
    simp only [List.length_cons, Nat.cast_add, Nat.cast_one] at hmax
    have hn1 : (step s i).nextId = s.nextId + 1 := by
      rw [hn]; exact wrapInt32_of_range _ (by omega) (by omega)
    obtain ⟨new, h1, h2, h3⟩ := ih (step s i) (by omega) (by omega)
    refine ⟨b :: new, ?_, ?_, ?_⟩
    · rw [List.foldl_cons, h1, hsc]; simp
    · rw [List.length_cons, range_succ_map_add, List.map_cons, h2, hb, hn1]
    · rw [List.foldl_cons, h3, hn1, List.length_cons]; push_cast; omega

/-- A field that the loop body does not write is unchanged by the loop. -/
theorem foldl_step_field {α : Type} (f : AppState → α) (step : AppState → Nat → AppState)
    (hstep : ∀ s i, f (step s i) = f s) (is : List Nat) :
    ∀ s : AppState, f (is.foldl step s) = f s := by
  induction is with
  | nil => intro s; rfl
  | cons i is ih => intro s; rw [List.foldl_cons, ih, hstep]

theorem spiralStep_spec (cosf sinf : ℚ → ℚ) (u : Nat → Block) (s : AppState) (i : Nat) :
    ∃ b : Block, b.id = s.nextId ∧
      (spiralStep cosf sinf u s i).currentPartBlocks = s.currentPartBlocks ++ [b] ∧
      (spiralStep cosf sinf u s i).nextId = wrapInt32 (s.nextId + 1) :=
  ⟨_, rfl, rfl, rfl⟩

theorem stairsStep_spec (u : Nat → Block) (s : AppState) (i : Nat) :
    ∃ b : Block, b.id = s.nextId ∧
      (stairsStep u s i).currentPartBlocks = s.currentPartBlocks ++ [b] ∧
      (stairsStep u s i).nextId = wrapInt32 (s.nextId + 1) :=
  ⟨_, rfl, rfl, rfl⟩

theorem range_map_add_nodup (c : Int) (n : Nat) :
    ((List.range n).map (fun k : Nat => c + (k : Int))).Nodup := by
  apply List.Nodup.map _ (List.nodup_range n)
  intro a b hab
  simp only at hab
  omega

/-- C8, amended. For a counter value `c` inside the 32-bit range with
`c + 30 ≤ INT_MAX`, and a scene whose ids are all below `c`, the spiral plug-in
run against the host table keeps the scene as a front part, appends exactly 30
blocks with ids `c, c+1, ..., c+29` in this order, pairwise distinct and distinct
from every earlier id, and leaves the counter at `c + 30`. -/
theorem C8_spiral_ids_fresh (cosf sinf : ℚ → ℚ) (u : Nat → Block) (s : AppState)
    (hlt : ∀ b ∈ s.currentPartBlocks, b.id < s.nextId)
    (hmin : -2147483648 ≤ s.nextId) (hmax : s.nextId + 30 ≤ INT_MAX) :
    ∃ new : List Block,
      (RunPlugin cosf sinf u hostTable s).currentPartBlocks = s.currentPartBlocks ++ new ∧
      new.length = 30 ∧
      new.map Block.id = (List.range 30).map (fun k : Nat => s.nextId + (k : Int)) ∧
      new.Pairwise (fun a b => a.id ≠ b.id) ∧
      (∀ b ∈ new, ∀ a ∈ s.currentPartBlocks, b.id ≠ a.id) ∧
      (RunPlugin cosf sinf u hostTable s).nextId = s.nextId + 30 := by
  obtain ⟨new, h1, h2, h3⟩ := foldl_append_ids (spiralStep cosf sinf u)
    (spiralStep_spec cosf sinf u) (List.range 30)
    (SaveUndoState (Log "Running Spiral Generator..." s))
    (by simpa using hmin) (by simpa using hmax)
  simp only [List.length_range, SaveUndoState_currentPartBlocks, SaveUndoState_nextId,
    Log_currentPartBlocks, Log_nextId, Nat.cast_ofNat] at h1 h2 h3
  refine ⟨new, h1, ?_, h2, ?_, ?_, h3⟩
  · have := congrArg List.length h2
    simpa using this
  · have hnd : (new.map Block.id).Nodup := by rw [h2]; exact range_map_add_nodup _ _
    exact (List.pairwise_map.mp hnd)
  · intro b hb a ha
    have hbid : b.id ∈ new.map Block.id := List.mem_map_of_mem _ hb
    rw [h2, List.mem_map] at hbid
    obtain ⟨k, _, hk⟩ := hbid
    have := hlt a ha
    omega

theorem C8_spiral_ids_fresh_witness :
    ∃ new : List Block,
      (RunPlugin (fun _ => 0) (fun _ => 0) (fun _ => junkBlock) hostTable
          (sessionStart junkBlock)).currentPartBlocks =
        (sessionStart junkBlock).currentPartBlocks ++ new ∧
      new.length = 30 ∧
      new.map Block.id = (List.range 30).map (fun k : Nat => (sessionStart junkBlock).nextId + (k : Int)) ∧
      new.Pairwise (fun a b => a.id ≠ b.id) ∧
      (∀ b ∈ new, ∀ a ∈ (sessionStart junkBlock).currentPartBlocks, b.id ≠ a.id) ∧
      (RunPlugin (fun _ => 0) (fun _ => 0) (fun _ => junkBlock) hostTable
          (sessionStart junkBlock)).nextId = (sessionStart junkBlock).nextId + 30 :=
  C8_spiral_ids_fresh (fun _ => 0) (fun _ => 0) (fun _ => junkBlock) (sessionStart junkBlock)
    (by decide) (by decide) (by decide)

set_option maxRecDepth 20000 in
/-- C8 fails as stated at the largest counter value: with `*host.nextId = INT_MAX`
and the empty scene the 30 new ids are not `c, ..., c+29` and the counter does
not end at `c + 30`. -/
theorem C8_counterexample :
    (∀ b ∈ ({ initState with nextId := INT_MAX } : AppState).currentPartBlocks,
        b.id < ({ initState with nextId := INT_MAX } : AppState).nextId) ∧
      (RunPlugin (fun _ => 0) (fun _ => 0) (fun _ => junkBlock) hostTable
          { initState with nextId := INT_MAX }).currentPartBlocks.map Block.id ≠
        (List.range 30).map (fun k : Nat => INT_MAX + (k : Int)) ∧
      (RunPlugin (fun _ => 0) (fun _ => 0) (fun _ => junkBlock) hostTable
          { initState with nextId := INT_MAX }).nextId ≠ INT_MAX + 30 := by
  refine ⟨by decide, by decide, by decide⟩

/-! ### The id invariant -/

theorem IdsOk_nil (n : Int) : IdsOk n [] := ⟨List.nodup_nil, by simp⟩

theorem IdsOk_mono (n m : Int) (ids : List Int) (h : IdsOk n ids) (hnm : n ≤ m) : IdsOk m ids :=
  ⟨h.1, fun i hi => lt_of_lt_of_le (h.2 i hi) hnm⟩

theorem IdsOk_append_range (c : Int) (n : Nat) (ids : List Int) (h : IdsOk c ids) :
    IdsOk (c + (n : Int)) (ids ++ (List.range n).map (fun k : Nat => c + (k : Int))) := by
  refine ⟨List.Nodup.append h.1 (range_map_add_nodup c n) ?_, ?_⟩
  · intro i hi hi2
    rw [List.mem_map] at hi2
    obtain ⟨k, _, hk⟩ := hi2
    have := h.2 i hi
    omega
  · intro i hi
    rw [List.mem_append] at hi
    rcases hi with hi | hi
    · have := h.2 i hi
      omega
    · rw [List.mem_map] at hi
      obtain ⟨k, hk, hk2⟩ := hi
      rw [List.mem_range] at hk
      omega

/-- Every snapshot on the stack after a checkpoint was on the stack before, or
is the live scene. -/
theorem SaveUndoState_mem (s : AppState) (snap : List Block)
    (h : snap ∈ (SaveUndoState s).undoStack) :
    snap ∈ s.undoStack ∨ snap = s.currentPartBlocks := by
  have key : ∀ l : List (List Block), (∀ x ∈ l, x ∈ s.undoStack) →
      ∀ x ∈ l ++ [s.currentPartBlocks], x ∈ s.undoStack ∨ x = s.currentPartBlocks := by
    intro l hl x hx
    rw [List.mem_append, List.mem_singleton] at hx
    exact hx.imp (hl x) id
  unfold SaveUndoState at h
  dsimp only at h
  split_ifs at h
  · exact key _ (fun x hx => List.mem_of_mem_take hx) _ (List.mem_of_mem_drop h)
  · exact key _ (fun x hx => List.mem_of_mem_take hx) _ h
  · exact key _ (fun x hx => hx) _ (List.mem_of_mem_drop h)
  · exact key _ (fun x hx => hx) _ h

theorem SaveUndoState_IdInv (s : AppState) (h : IdInv s) : IdInv (SaveUndoState s) := by
  obtain ⟨h1, h2, h3⟩ := h
  refine ⟨by simpa using h1, by simpa using h2, ?_⟩
  intro snap hsnap
  rw [SaveUndoState_nextId]
  rcases SaveUndoState_mem s snap hsnap with hm | hm
  · exact h3 snap hm
  · rw [hm]; exact h2

theorem PerformUndo_IdInv (s : AppState) (h : IdInv s) : IdInv (PerformUndo s) := by
  obtain ⟨h1, h2, h3⟩ := h
  unfold IdInv
  rw [PerformUndo_nextId, PerformUndo_undoStack, PerformUndo_currentPartBlocks]
  refine ⟨h1, ?_, h3⟩
  split
  · rw [List.getD_eq_getElem?_getD]
    cases hget : s.undoStack[(s.undoIndex - 1).toNat]? with
    | none => exact IdsOk_nil _
    | some snap => exact h3 snap (List.getElem?_mem hget)
  · exact h2

theorem WakeAllPhysics_map_id (s : AppState) :
    (WakeAllPhysics s).currentPartBlocks.map Block.id = s.currentPartBlocks.map Block.id := by
  unfold WakeAllPhysics
  simp only [List.map_map]
  rfl

theorem WakeAllPhysics_IdInv (s : AppState) (h : IdInv s) : IdInv (WakeAllPhysics s) := by
  obtain ⟨h1, h2, h3⟩ := h
  refine ⟨h1, ?_, h3⟩
  rw [WakeAllPhysics_map_id]
  exact h2

theorem UpdatePhysics_IdInv (t : ℚ) (s : AppState) (h : IdInv s) : IdInv (UpdatePhysics t s) := by
  obtain ⟨h1, h2, h3⟩ := h
  have hid := UpdatePhysics_map_id t s
  unfold IdInv
  rw [hid]
  unfold UpdatePhysics
  split
  · exact ⟨h1, h2, h3⟩
  · exact ⟨h1, h2, h3⟩

theorem Log_IdInv (m : String) (s : AppState) (h : IdInv s) : IdInv (Log m s) := h

/-- Appending, from a state that satisfies the id invariant, `is.length` blocks
by a loop that draws each id from the counter keeps the invariant, provided the
counter does not overflow and the loop leaves the stack alone. -/
theorem foldl_append_IdInv (step : AppState → Nat → AppState)
    (hstep : ∀ s i, ∃ b : Block, b.id = s.nextId ∧
      (step s i).currentPartBlocks = s.currentPartBlocks ++ [b] ∧
      (step s i).nextId = wrapInt32 (s.nextId + 1))
    (hstack : ∀ s i, (step s i).undoStack = s.undoStack) (is : List Nat) (s : AppState)
    (h : IdInv s) (hmax : s.nextId + (is.length : Int) ≤ INT_MAX) :
    IdInv (is.foldl step s) := by
  obtain ⟨h1, h2, h3⟩ := h
  obtain ⟨new, e1, e2, e3⟩ := foldl_append_ids step hstep is s (by omega) hmax
  unfold IdInv
  rw [e1, e3, List.map_append, e2, foldl_step_field AppState.undoStack step hstack is s]
  refine ⟨by omega, IdsOk_append_range _ _ _ h2, ?_⟩
  intro snap hsnap
  exact IdsOk_mono _ _ _ (h3 snap hsnap) (by omega)

theorem IdsOk_append_one (c : Int) (ids : List Int) (h : IdsOk c ids) :
    IdsOk (c + 1) (ids ++ [c]) := by
  have := IdsOk_append_range c 1 ids h
  simpa [List.range_succ] using this

/-- What `GenerateBaseplate` does to the scene, the counter and the stack. -/
theorem GenerateBaseplate_spec (u : Block) (s : AppState) :
    ∃ b : Block, b.id = s.nextId ∧ b.velocity = u.velocity ∧ b.isSleeping = true ∧
      (GenerateBaseplate u s).currentPartBlocks = s.currentPartBlocks ++ [b] ∧
      (GenerateBaseplate u s).nextId = wrapInt32 (s.nextId + 1) ∧
      (GenerateBaseplate u s).undoStack = (SaveUndoState s).undoStack := by
  refine ⟨{ u with
      id := s.nextId
      size := ⟨40, 2 / 10, 40⟩
      position := ⟨0, -(1 / 10), 0⟩
      color := DARKGRAY
      type := ShapeType.SHAPE_CUBE
      visible := true
      isSleeping := true }, rfl, rfl, rfl, ?_, ?_, rfl⟩
  · unfold GenerateBaseplate
    simp only [Log_currentPartBlocks, SaveUndoState_currentPartBlocks, SaveUndoState_nextId]
  · unfold GenerateBaseplate
    simp only [Log_nextId, SaveUndoState_nextId]

theorem GenerateBaseplate_IdInv (u : Block) (s : AppState) (h : IdInv s)
    (hmax : s.nextId + 1 ≤ INT_MAX) : IdInv (GenerateBaseplate u s) := by
  obtain ⟨b, hb, _, _, hsc, hn, hst⟩ := GenerateBaseplate_spec u s
  have hn1 : (GenerateBaseplate u s).nextId = s.nextId + 1 := by
    rw [hn]; exact wrapInt32_of_range _ (by have := h.1; omega) hmax
  obtain ⟨h1, h2, h3⟩ := SaveUndoState_IdInv s h
  rw [SaveUndoState_nextId] at h1 h3
  rw [SaveUndoState_nextId, SaveUndoState_currentPartBlocks] at h2
  unfold IdInv
  rw [hsc, hn1, hst, List.map_append, List.map_cons, List.map_nil, hb]
  refine ⟨by omega, IdsOk_append_one _ _ h2, ?_⟩
  intro snap hsnap
  exact IdsOk_mono _ _ _ (h3 snap hsnap) (by omega)

theorem RunCommand_clear (u : Nat → Block) (s : AppState) :
    RunCommand u "clear" s =
      Log "Scene Cleared" { SaveUndoState s with currentPartBlocks := [] } := rfl

theorem RunCommand_baseplate (u : Nat → Block) (s : AppState) :
    RunCommand u "baseplate" s = GenerateBaseplate (u 0) s := rfl

theorem RunCommand_physics (u : Nat → Block) (s : AppState) :
    RunCommand u "physics" s =
      Log "Physics Toggled" (WakeAllPhysics
        { s with settings := { s.settings with physics := !s.settings.physics } }) := rfl

theorem RunCommand_stairs (u : Nat → Block) (s : AppState) :
    RunCommand u "stairs" s =
      Log "Stairs generated." ((List.range 12).foldl (stairsStep u) (SaveUndoState s)) := rfl

theorem Reachable_IdInv (s : AppState) (h : Reachable s) : IdInv s := by
  induction h with
  | init s h1 h2 _ h4 =>
    unfold IdInv
    rw [h1, h2, h4]
    exact ⟨le_refl _, IdsOk_nil _, by simp⟩
  | generateBaseplate s u _ hmax ih => exact GenerateBaseplate_IdInv u s ih hmax
  | runClear s u _ ih =>
    rw [RunCommand_clear]
    obtain ⟨h1, _, h3⟩ := SaveUndoState_IdInv s ih
    exact ⟨h1, IdsOk_nil _, h3⟩
  | runBaseplate s u _ hmax ih =>
    rw [RunCommand_baseplate]
    exact GenerateBaseplate_IdInv (u 0) s ih hmax
  | runPhysics s u _ ih =>
    rw [RunCommand_physics]
    exact Log_IdInv _ _ (WakeAllPhysics_IdInv _ ih)
  | runStairs s u _ hmax ih =>
    rw [RunCommand_stairs]
    apply Log_IdInv
    apply foldl_append_IdInv (stairsStep u) (stairsStep_spec u) (fun _ _ => rfl)
    · exact SaveUndoState_IdInv s ih
    · rw [SaveUndoState_nextId]; simpa using hmax
  | saveUndoState s _ ih => exact SaveUndoState_IdInv s ih
  | performUndo s _ ih => exact PerformUndo_IdInv s ih
  | updatePhysics s t _ ih => exact UpdatePhysics_IdInv t s ih
  | wakeAllPhysics s _ ih => exact WakeAllPhysics_IdInv s ih

/-- C7. In every state reachable from the initial state (empty scene, empty
history, id counter 1) by `GenerateBaseplate`, the commands `clear`,
`baseplate`, `physics` and `stairs`, `SaveUndoState`, `PerformUndo`,
`UpdatePhysics` and `WakeAllPhysics`, along runs in which the id counter does
not overflow, the ids of the blocks of the live scene are pairwise distinct. -/
theorem C7_ids_pairwise_distinct (s : AppState) (h : Reachable s) :
    s.currentPartBlocks.Pairwise (fun a b => a.id ≠ b.id) := by
  have hnd : (s.currentPartBlocks.map Block.id).Nodup := (Reachable_IdInv s h).2.1.1
  exact List.pairwise_map.mp hnd

theorem C7_ids_pairwise_distinct_witness :
    Reachable (PerformUndo (RunCommand (fun _ => junkBlock) "stairs"
        (RunCommand (fun _ => junkBlock) "stairs" (sessionStart junkBlock)))) ∧
      (PerformUndo (RunCommand (fun _ => junkBlock) "stairs"
        (RunCommand (fun _ => junkBlock) "stairs"
          (sessionStart junkBlock)))).currentPartBlocks.Pairwise (fun a b => a.id ≠ b.id) :=
  ⟨Reachable.performUndo _ (Reachable.runStairs _ _ (Reachable.runStairs _ _
      (Reachable.generateBaseplate _ _ (Reachable.init _ rfl rfl rfl rfl) (by decide))
      (by decide)) (by decide)),
    C7_ids_pairwise_distinct _ (Reachable.performUndo _ (Reachable.runStairs _ _
      (Reachable.runStairs _ _
        (Reachable.generateBaseplate _ _ (Reachable.init _ rfl rfl rfl rfl) (by decide))
        (by decide)) (by decide)))⟩

/-! ### Creation defaults -/

set_option maxRecDepth 20000 in
/-- C9, evaluated on the code. The creation routines give each new block the
counter value as id, but never assign `velocity`, and the `stairs` loop never
assigns `isSleeping`: these fields keep the content `u` of the uninitialised
local. With storage that holds an awake block of velocity `(0, -3, 0)`, the
baseplate is created with that velocity, and the 12 stair blocks (ids 2 to 13)
with that velocity and `isSleeping = false`. -/
theorem C9_creation_leaves_fields_unassigned :
    (∀ (u : Block) (s : AppState), ∃ b : Block,
        (GenerateBaseplate u s).currentPartBlocks = s.currentPartBlocks ++ [b] ∧
          b.id = s.nextId ∧ b.velocity = u.velocity ∧ b.isSleeping = true) ∧
      (sessionStart junkBlock).currentPartBlocks.map
          (fun b => (b.id, b.velocity, b.isSleeping)) = [(1, ⟨0, -3, 0⟩, true)] ∧
      ((RunCommand (fun _ => junkBlock) "stairs"
          (sessionStart junkBlock)).currentPartBlocks.drop 1).map
          (fun b => (b.id, b.velocity, b.isSleeping)) =
        (List.range 12).map (fun k : Nat => ((k : Int) + 2, ⟨0, -3, 0⟩, false)) := by
  refine ⟨?_, by decide, by decide⟩
  intro u s
  obtain ⟨b, h1, h2, h3, h4, _⟩ := GenerateBaseplate_spec u s
  exact ⟨b, h4, h1, h2, h3⟩

/-! ### The physics pass as a recursion over the scene -/

theorem collideWith_of_id_eq (c o : Block) (h : c.id = o.id) : collideWith c o = c := by
  unfold collideWith
  rw [if_pos h]

theorem resolve_id (others : List Block) : ∀ c : Block, (resolve c others).id = c.id := by
  induction others with
  | nil => intro c; rfl
  | cons o os ih =>
    intro c
    show (resolve (collideWith c o) os).id = c.id
    rw [ih, collideWith_id]

theorem foldl_range_getElem? {β : Type} (f : β → Block → β) (sc : List Block) :
    ∀ b0 : β, (List.range sc.length).foldl
        (fun c j => match sc[j]? with
          | some o => f c o
          | none => c) b0 = sc.foldl f b0 := by
  induction sc with
  | nil => intro b0; rfl
  | cons x xs ih =>
    intro b0
    rw [List.length_cons, List.range_succ_eq_map, List.foldl_cons, List.foldl_map]
    simp only [List.getElem?_cons_zero, Nat.succ_eq_add_one, List.getElem?_cons_succ]
    exact ih (f b0 x)

theorem foldl_innerStep_set (sc : List Block) (i : Nat) (b : Block) (hb : sc[i]? = some b)
    (js : List Nat) :
    ∀ cur : Block, cur.id = b.id →
      js.foldl (innerStep i) (sc.set i cur) =
        sc.set i (js.foldl
          (fun c j => match sc[j]? with
            | some o => collideWith c o
            | none => c) cur) := by
  have hi : i < sc.length := by
    by_contra hge
    rw [List.getElem?_eq_none (by omega)] at hb
    exact Option.noConfusion hb
  induction js with
  | nil => intro cur _; rfl
  | cons j js ih =>
    intro cur hcur
    rw [List.foldl_cons, List.foldl_cons]
    have hself : (sc.set i cur)[i]? = some cur := List.getElem?_set_self hi
    by_cases hji : j = i
    · subst hji
      have h1 : innerStep j (sc.set j cur) j = sc.set j cur := by
        unfold innerStep
        rw [hself]
        simp only [collideWith_of_id_eq cur cur rfl, List.set_set]
      rw [h1, hb]
      simp only [collideWith_of_id_eq cur b hcur]
      exact ih cur hcur
    · have hother : (sc.set i cur)[j]? = sc[j]? := List.getElem?_set_ne (Ne.symm hji)
      cases hj : sc[j]? with
      | none =>
        have h1 : innerStep i (sc.set i cur) j = sc.set i cur := by
          unfold innerStep
          rw [hself, hother, hj]
        rw [h1]
        exact ih cur hcur
      | some o =>
        have h1 : innerStep i (sc.set i cur) j = sc.set i (collideWith cur o) := by
          unfold innerStep
          rw [hself, hother, hj]
          simp only [List.set_set]
        rw [h1]
        exact ih (collideWith cur o) (by rw [collideWith_id, hcur])

theorem set_of_getElem? (sc : List Block) (i : Nat) (b : Block) (hb : sc[i]? = some b) :
    sc.set i b = sc := by
  apply List.ext_getElem?
  intro k
  by_cases hk : i = k
  · subst hk
    rw [List.getElem?_set_self', hb]; rfl
  · rw [List.getElem?_set_ne hk]

/-- The inner loop for the block at index `i` rewrites that element to the
result of meeting every element of the vector in order. -/
theorem innerLoop_eq (sc : List Block) (i : Nat) (b : Block) (hb : sc[i]? = some b) :
    innerLoop i sc = sc.set i (resolve b sc) := by
  unfold innerLoop resolve
  have h := foldl_innerStep_set sc i b hb (List.range sc.length) b rfl
  rw [set_of_getElem? sc i b hb] at h
  rw [h, foldl_range_getElem?]

theorem resolve_set_same_id (l : List Block) :
    ∀ (i : Nat) (c x y : Block), l[i]? = some y → y.id = c.id → x.id = c.id →
      resolve c (l.set i x) = resolve c l := by
  induction l with
  | nil => intro i c x y h; simp at h
  | cons a as ih =>
    intro i c x y h hy hx
    cases i with
    | zero =>
      simp only [List.getElem?_cons_zero, Option.some.injEq] at h
      subst h
      show resolve (collideWith c x) as = resolve (collideWith c a) as
      rw [collideWith_of_id_eq c x hx.symm, collideWith_of_id_eq c a hy.symm]
    | succ i =>
      simp only [List.getElem?_cons_succ] at h
      show resolve (collideWith c a) (as.set i x) = resolve (collideWith c a) as
      exact ih i _ x y h (by rw [collideWith_id, hy]) (by rw [collideWith_id, hx])

/-- One iteration of the outer loop rewrites the element at index `i` to
`moveBlock` of it. -/
theorem stepBlock_eq (dt : ℚ) (sc : List Block) (i : Nat) (b : Block) (hb : sc[i]? = some b) :
    stepBlock dt i sc = sc.set i (moveBlock dt sc b) := by
  have hi : i < sc.length := by
    by_contra hge
    rw [List.getElem?_eq_none (by omega)] at hb
    exact Option.noConfusion hb
  unfold stepBlock moveBlock
  rw [hb]
  dsimp only
  split
  · exact (set_of_getElem? sc i b hb).symm
  · rw [innerLoop_eq _ i (integrateBlock dt b) (List.getElem?_set_self hi), List.set_set,
      resolve_set_same_id sc i _ _ b hb (integrateBlock_id dt b).symm rfl]

theorem set_length_append (done rest : List Block) (b x : Block) :
    (done ++ b :: rest).set done.length x = done ++ x :: rest := by
  induction done with
  | nil => rfl
  | cons d ds ih => simp only [List.cons_append, List.length_cons, List.set_cons_succ, ih]

theorem foldl_stepBlock_eq_passFrom (dt : ℚ) (todo : List Block) :
    ∀ done : List Block,
      ((List.range todo.length).map (fun k => k + done.length)).foldl
          (fun sc i => stepBlock dt i sc) (done ++ todo) = passFrom dt done todo := by
  induction todo with
  | nil => intro done; simp [passFrom]
  | cons b rest ih =>
    intro done
    have hb : (done ++ b :: rest)[done.length]? = some b := by
      rw [List.getElem?_append_right (le_refl _)]
      simp
    rw [List.length_cons, List.range_succ_eq_map, List.map_cons, List.foldl_cons, Nat.zero_add,
      stepBlock_eq dt _ _ b hb, set_length_append, passFrom]
    have := ih (done ++ [moveBlock dt (done ++ b :: rest) b])
    simp only [List.append_assoc, List.singleton_append, List.length_append,
      List.length_singleton] at this
    rw [← this, List.map_map]
    congr 1
    apply List.map_congr_left
    intro k _
    simp only [Function.comp_apply, Nat.succ_eq_add_one, zero_add]
    omega

/-- The index-based outer loop computes the list recursion `passFrom`. -/
theorem physicsPass_eq_passFrom (dt : ℚ) (sc : List Block) :
    physicsPass dt sc = passFrom dt [] sc := by
  have := foldl_stepBlock_eq_passFrom dt sc []
  simpa [physicsPass] using this

theorem UpdatePhysics_eq (t : ℚ) (s : AppState) :
    UpdatePhysics t s =
      if s.settings.physics then
        { s with currentPartBlocks := passFrom (clampDt t) [] s.currentPartBlocks }
      else s := by
  unfold UpdatePhysics clampDt
  cases h : s.settings.physics
  · rfl
  · simp only [Bool.not_true, Bool.false_eq_true, if_false, if_true]
    rw [physicsPass_eq_passFrom]

/-! ### Frame of the physics step and of the wake-up -/

theorem UpdatePhysics_map {α : Type} (f : Block → α)
    (hi : ∀ dt b, f (integrateBlock dt b) = f b)
    (hf : ∀ b other, f (collideWith b other) = f b) (t : ℚ) (s : AppState) :
    (UpdatePhysics t s).currentPartBlocks.map f = s.currentPartBlocks.map f := by
  unfold UpdatePhysics
  split
  · rfl
  · exact physicsPass_map f hi hf _ _

theorem UpdatePhysics_history (t : ℚ) (s : AppState) :
    (UpdatePhysics t s).undoStack = s.undoStack ∧
      (UpdatePhysics t s).undoIndex = s.undoIndex ∧
      (UpdatePhysics t s).nextId = s.nextId ∧
      (UpdatePhysics t s).settings = s.settings := by
  unfold UpdatePhysics
  split <;> exact ⟨rfl, rfl, rfl, rfl⟩

/-- C11. `UpdatePhysics()` keeps the number of blocks and, index by index, the
id, size, rotation, color, type, material, visible flag, `position.x`,
`position.z`, `velocity.x` and `velocity.z` of every block (only `position.y`,
`velocity.y` and `isSleeping` can differ); the undo stack, the cursor and the id
counter are unchanged. -/
theorem C11_UpdatePhysics_frame (t : ℚ) (s : AppState) :
    (UpdatePhysics t s).currentPartBlocks.length = s.currentPartBlocks.length ∧
      (UpdatePhysics t s).currentPartBlocks.map Block.id = s.currentPartBlocks.map Block.id ∧
      (UpdatePhysics t s).currentPartBlocks.map Block.size =
        s.currentPartBlocks.map Block.size ∧
      (UpdatePhysics t s).currentPartBlocks.map Block.rotation =
        s.currentPartBlocks.map Block.rotation ∧
      (UpdatePhysics t s).currentPartBlocks.map Block.color =
        s.currentPartBlocks.map Block.color ∧
      (UpdatePhysics t s).currentPartBlocks.map Block.type =
        s.currentPartBlocks.map Block.type ∧
      (UpdatePhysics t s).currentPartBlocks.map Block.material =
        s.currentPartBlocks.map Block.material ∧
      (UpdatePhysics t s).currentPartBlocks.map Block.visible =
        s.currentPartBlocks.map Block.visible ∧
      (UpdatePhysics t s).currentPartBlocks.map (fun b => b.position.x) =
        s.currentPartBlocks.map (fun b => b.position.x) ∧
      (UpdatePhysics t s).currentPartBlocks.map (fun b => b.position.z) =
        s.currentPartBlocks.map (fun b => b.position.z) ∧
      (UpdatePhysics t s).currentPartBlocks.map (fun b => b.velocity.x) =
        s.currentPartBlocks.map (fun b => b.velocity.x) ∧
      (UpdatePhysics t s).currentPartBlocks.map (fun b => b.velocity.z) =
        s.currentPartBlocks.map (fun b => b.velocity.z) ∧
      (UpdatePhysics t s).undoStack = s.undoStack ∧
      (UpdatePhysics t s).undoIndex = s.undoIndex ∧
      (UpdatePhysics t s).nextId = s.nextId := by
  have hlen : (UpdatePhysics t s).currentPartBlocks.length = s.currentPartBlocks.length := by
    have := congrArg List.length (UpdatePhysics_map_id t s)
    simpa using this
  obtain ⟨h1, h2, h3, _⟩ := UpdatePhysics_history t s
  refine ⟨hlen, UpdatePhysics_map_id t s, ?_, ?_, ?_, ?_, ?_, ?_, ?_, ?_, ?_, ?_, h1, h2, h3⟩ <;>
    refine UpdatePhysics_map _ (fun dt b => ?_) (fun b other => ?_) t s
  all_goals first
    | (unfold integrateBlock; dsimp only; split <;> rfl)
    | (unfold collideWith; split_ifs <;> rfl)

/-- C16. `WakeAllPhysics()` keeps the number and the order of the blocks, leaves
every block awake with velocity `(0,0,0)`, keeps every other field of every
block, index by index, and is idempotent. -/
theorem C16_WakeAllPhysics_postcondition (s : AppState) :
    (WakeAllPhysics s).currentPartBlocks.length = s.currentPartBlocks.length ∧
      (WakeAllPhysics s).currentPartBlocks.map Block.isSleeping =
        s.currentPartBlocks.map (fun _ => false) ∧
      (WakeAllPhysics s).currentPartBlocks.map Block.velocity =
        s.currentPartBlocks.map (fun _ => (⟨0, 0, 0⟩ : Vector3)) ∧
      (WakeAllPhysics s).currentPartBlocks.map Block.id = s.currentPartBlocks.map Block.id ∧
      (WakeAllPhysics s).currentPartBlocks.map Block.position =
        s.currentPartBlocks.map Block.position ∧
      (WakeAllPhysics s).currentPartBlocks.map Block.size = s.currentPartBlocks.map Block.size ∧
      (WakeAllPhysics s).currentPartBlocks.map Block.rotation =
        s.currentPartBlocks.map Block.rotation ∧
      (WakeAllPhysics s).currentPartBlocks.map Block.color =
        s.currentPartBlocks.map Block.color ∧
      (WakeAllPhysics s).currentPartBlocks.map Block.type = s.currentPartBlocks.map Block.type ∧
      (WakeAllPhysics s).currentPartBlocks.map Block.material =
        s.currentPartBlocks.map Block.material ∧
      (WakeAllPhysics s).currentPartBlocks.map Block.visible =
        s.currentPartBlocks.map Block.visible ∧
      WakeAllPhysics (WakeAllPhysics s) = WakeAllPhysics s := by
  unfold WakeAllPhysics
  refine ⟨by simp, ?_, ?_, ?_, ?_, ?_, ?_, ?_, ?_, ?_, ?_, ?_⟩
  all_goals simp only [List.map_map]
  all_goals rfl

/-! ### The floor -/

theorem CheckCollision_iff (pA sA pB sB : Vector3) :
    CheckCollision pA sA pB sB = true ↔
      |pA.x - pB.x| < (sA.x + sB.x) / 2 ∧ |pA.y - pB.y| < (sA.y + sB.y) / 2 ∧
        |pA.z - pB.z| < (sA.z + sB.z) / 2 := by
  unfold CheckCollision
  simp only [Bool.and_eq_true, decide_eq_true_eq, and_assoc]

/-- The collision response either leaves the moving block as it is, or it is a
snap: the blocks have different ids and overlap on the three axes, the moving
block is above, and the response puts it on top of the other, at rest. -/
theorem collideWith_cases (c o : Block) :
    collideWith c o = c ∨
      (c.id ≠ o.id ∧ CheckCollision c.position c.size o.position o.size = true ∧
        c.position.y > o.position.y ∧
        collideWith c o =
          { c with
            position := { c.position with y := o.position.y + o.size.y / 2 + c.size.y / 2 }
            velocity := { c.velocity with y := 0 }
            isSleeping := true }) := by
  unfold collideWith
  split_ifs with h1 h2 h3
  · exact Or.inl rfl
  · exact Or.inr ⟨h1, h2, h3, rfl⟩
  · exact Or.inl rfl
  · exact Or.inl rfl

theorem gravity_pos : 0 < gravity := by
  unfold gravity
  norm_num

theorem dtCap_pos : 0 < dtCap := by
  unfold dtCap
  norm_num

theorem clampDt_of_ge (t : ℚ) (h : dtCap ≤ t) : clampDt t = dtCap := by
  unfold clampDt
  split
  · rfl
  · rename_i hn
    exact le_antisymm (not_lt.mp hn) h

theorem moveBlock_solo (dt : ℚ) (b : Block) :
    moveBlock dt [b] b = if b.isSleeping || !b.visible then b else integrateBlock dt b := by
  unfold moveBlock resolve
  split
  · rfl
  · simp only [List.foldl_cons, List.foldl_nil]
    exact collideWith_of_id_eq _ _ (integrateBlock_id dt b)

theorem moveBlock_solo_awake (dt : ℚ) (b : Block) (hv : b.visible = true)
    (hs : b.isSleeping = false) : moveBlock dt [b] b = integrateBlock dt b := by
  rw [moveBlock_solo]
  simp [hv, hs]

theorem moveBlock_solo_sleeping (dt : ℚ) (b : Block) (hs : b.isSleeping = true) :
    moveBlock dt [b] b = b := by
  rw [moveBlock_solo]
  simp [hs]

theorem UpdatePhysics_solo (t : ℚ) (s : AppState) (b : Block)
    (hphys : s.settings.physics = true) (hsc : s.currentPartBlocks = [b]) :
    UpdatePhysics t s = { s with currentPartBlocks := [moveBlock (clampDt t) [b] b] } := by
  rw [UpdatePhysics_eq, hphys, hsc]
  simp [passFrom]

theorem iterate_UpdatePhysics_solo (t : ℚ) (k : ℕ) :
    ∀ (s : AppState) (b : Block), s.settings.physics = true → s.currentPartBlocks = [b] →
      ((UpdatePhysics t)^[k] s).currentPartBlocks =
        [(fun x => moveBlock (clampDt t) [x] x)^[k] b] := by
  induction k with
  | zero => intro s b _ hsc; exact hsc
  | succ k ih =>
    intro s b hphys hsc
    rw [Function.iterate_succ_apply, Function.iterate_succ_apply,
      UpdatePhysics_solo t s b hphys hsc]
    exact ih _ _ hphys rfl

set_option maxRecDepth 100000 in
/-- In exact arithmetic the unit cube dropped from height 5 is still falling
after 59 steps of `0.016` and is at rest on the floor, at height `1/2` and
asleep, after 60. -/
theorem dropDemo_settles :
    ((UpdatePhysics (1 / 60))^[59] dropDemo).currentPartBlocks.map Block.isSleeping = [false] ∧
      ((UpdatePhysics (1 / 60))^[60] dropDemo).currentPartBlocks =
        [{ dropCube with position := ⟨0, 1 / 2, 0⟩, isSleeping := true }] := by
  constructor <;> decide!

/-! ### Stacking -/

theorem collideWith_snap_eq (c o : Block) (hid : c.id ≠ o.id)
    (hc : CheckCollision c.position c.size o.position o.size = true)
    (habove : c.position.y > o.position.y) :
    collideWith c o =
      { c with
        position := { c.position with y := o.position.y + o.size.y / 2 + c.size.y / 2 }
        velocity := { c.velocity with y := 0 }
        isSleeping := true } := by
  unfold collideWith
  rw [if_neg hid, if_pos hc, if_pos habove]

set_option maxRecDepth 100000 in
/-- In exact arithmetic the cube released at height 2 above the sleeping unit
cube at height 0 falls for 28 steps of `0.016` and then rests on it, at height 1, asleep with zero
velocity. -/
theorem stackDemo_settles :
    ((UpdatePhysics (1 / 60))^[28] stackDemo).currentPartBlocks =
      [cubeA, { cubeB with position := ⟨0, 1, 0⟩, isSleeping := true }] := by
  decide!

/-! ### The time step -/

theorem integrateBlock_zero (b : Block) (h : OnOrAboveFloor b) : integrateBlock 0 b = b := by
  unfold OnOrAboveFloor at h
  unfold integrateBlock
  simp only [mul_zero, sub_zero, add_zero]
  rw [if_neg (not_lt.mpr h)]

theorem resolve_fixed (L : List Block) (b : Block) (h : ∀ o ∈ L, collideWith b o = b) :
    resolve b L = b := by
  induction L with
  | nil => rfl
  | cons o os ih =>
    show resolve (collideWith b o) os = b
    rw [h o (List.mem_cons_self _ _)]
    exact ih (fun x hx => h x (List.mem_cons_of_mem _ hx))

theorem collideWith_of_noSnap (b o : Block)
    (h : b.id = o.id ∨ CheckCollision b.position b.size o.position o.size = false ∨
      b.position.y ≤ o.position.y) : collideWith b o = b := by
  rcases collideWith_cases b o with h0 | ⟨h1, h2, h3, _⟩
  · exact h0
  · rcases h with h | h | h
    · exact absurd h h1
    · rw [h2] at h; exact Bool.noConfusion h
    · exact absurd h3 (not_lt.mpr h)

theorem passFrom_fixed (dt : ℚ) (S : List Block) :
    ∀ todo done : List Block, (∀ o ∈ done ++ todo, o ∈ S) →
      (∀ b ∈ todo, ∀ L : List Block, (∀ o ∈ L, o ∈ S) → moveBlock dt L b = b) →
      passFrom dt done todo = done ++ todo := by
  intro todo
  induction todo with
  | nil => intro done _ _; simp [passFrom]
  | cons b rest ih =>
    intro done hS hfix
    rw [passFrom, hfix b (List.mem_cons_self _ _) _ hS,
      ih (done ++ [b]) (by simpa using hS)
        (fun x hx => hfix x (List.mem_cons_of_mem _ hx))]
    simp

/-- C15 fails as stated. With physics enabled a negative frame time integrates
(the falling cube changes), and a zero frame time still runs the floor test: the
baseplate woken by the `physics` command is moved onto the floor and put back to
sleep. -/
theorem C15_counterexample :
    (UpdatePhysics (-(1 / 100)) dropDemo).currentPartBlocks ≠ dropDemo.currentPartBlocks ∧
      (UpdatePhysics 0 (RunCommand (fun _ => junkBlock) "physics"
          (sessionStart junkBlock))).currentPartBlocks ≠
        (RunCommand (fun _ => junkBlock) "physics" (sessionStart junkBlock)).currentPartBlocks := by
  constructor <;> decide!

/-- C15, amended. With physics disabled `UpdatePhysics()` leaves the state
unchanged for every frame time. With physics enabled and a frame time of exactly
0 the integration changes nothing, and the whole scene is unchanged provided
every block that is visible and awake has its lower face at or above the floor
and is in no snapping overlap (every other block has the same id, or does not
overlap it on the three axes, or is not below its centre). -/
theorem C15_zero_step (s : AppState) :
    (∀ t : ℚ, s.settings.physics = false → UpdatePhysics t s = s) ∧
      (s.settings.physics = true →
        (∀ b ∈ s.currentPartBlocks, b.isSleeping = true ∨ b.visible = false ∨
          (0 ≤ b.position.y - b.size.y / 2 ∧
            ∀ o ∈ s.currentPartBlocks, b.id = o.id ∨
              CheckCollision b.position b.size o.position o.size = false ∨
              b.position.y ≤ o.position.y)) →
        UpdatePhysics 0 s = s) := by
  constructor
  · intro t h
    unfold UpdatePhysics
    rw [h]
    rfl
  · intro hphys hcond
    have hdt : clampDt 0 = 0 := by
      unfold clampDt
      rw [if_neg (not_lt.mpr (le_of_lt dtCap_pos))]
    rw [UpdatePhysics_eq, hphys, hdt]
    simp only [if_true]
    rw [passFrom_fixed 0 s.currentPartBlocks s.currentPartBlocks [] (by simp)]
    · rfl
    · intro b hb L hL
      unfold moveBlock
      rcases hcond b hb with h | h | ⟨hfloor, hsnap⟩
      · simp [h]
      · simp [h]
      · split
        · rfl
        · rw [integrateBlock_zero b hfloor]
          exact resolve_fixed L b (fun o ho => collideWith_of_noSnap b o (hsnap o (hL o ho)))

theorem C15_zero_step_witness : UpdatePhysics 0 stackDemo = stackDemo :=
  (C15_zero_step stackDemo).2 rfl (by decide!)

/-! ### Invisible blocks -/

theorem stepBlock_of_invisible (dt : ℚ) (i : Nat) (scene : List Block) (b : Block)
    (hb : scene[i]? = some b) (hv : b.visible = false) : stepBlock dt i scene = scene := by
  unfold stepBlock
  rw [hb]
  simp [hv]

theorem foldl_stepBlock_invisible (dt : ℚ) (k : Nat) (b : Block) (hv : b.visible = false)
    (is : List Nat) :
    ∀ scene : List Block, scene[k]? = some b →
      (is.foldl (fun sc i => stepBlock dt i sc) scene)[k]? = some b := by
  induction is with
  | nil => intro scene h; exact h
  | cons i is ih =>
    intro scene h
    rw [List.foldl_cons]
    apply ih
    by_cases hik : i = k
    · subst hik
      rw [stepBlock_of_invisible dt i scene b h hv]; exact h
    · rw [stepBlock_getElem?_ne dt i k hik]; exact h

theorem UpdatePhysics_invisible (t : ℚ) (s : AppState) (k : Nat) (b : Block)
    (hb : s.currentPartBlocks[k]? = some b) (hv : b.visible = false) :
    (UpdatePhysics t s).currentPartBlocks[k]? = some b := by
  unfold UpdatePhysics
  split
  · exact hb
  · exact foldl_stepBlock_invisible _ k b hv _ _ hb

theorem collideWith_of_planApart (c o : Block) (h : PlanApart c o) : collideWith c o = c := by
  rcases collideWith_cases c o with h0 | ⟨h1, h2, _, _⟩
  · exact h0
  · rw [CheckCollision_iff] at h2
    rcases h with h | h | h
    · exact absurd h h1
    · exact absurd h2.1 h
    · exact absurd h2.2.2 h

theorem planApart_congr (c d o : Block) (hid : d.id = c.id) (hx : d.position.x = c.position.x)
    (hz : d.position.z = c.position.z) (hs : d.size = c.size) (h : PlanApart c o) :
    PlanApart d o := by
  unfold PlanApart at *
  rw [hid, hx, hz, hs]
  exact h

theorem collideWith_footprint (c o : Block) :
    (collideWith c o).id = c.id ∧ (collideWith c o).position.x = c.position.x ∧
      (collideWith c o).position.z = c.position.z ∧ (collideWith c o).size = c.size ∧
      (collideWith c o).visible = c.visible := by
  unfold collideWith
  split_ifs <;> exact ⟨rfl, rfl, rfl, rfl, rfl⟩

theorem integrateBlock_footprint (dt : ℚ) (b : Block) :
    (integrateBlock dt b).id = b.id ∧ (integrateBlock dt b).position.x = b.position.x ∧
      (integrateBlock dt b).position.z = b.position.z ∧ (integrateBlock dt b).size = b.size ∧
      (integrateBlock dt b).visible = b.visible := by
  unfold integrateBlock
  dsimp only
  split <;> exact ⟨rfl, rfl, rfl, rfl, rfl⟩

theorem resolve_visible (L : List Block) : ∀ c : Block, (resolve c L).visible = c.visible := by
  induction L with
  | nil => intro c; rfl
  | cons o os ih =>
    intro c
    show (resolve (collideWith c o) os).visible = c.visible
    rw [ih, (collideWith_footprint c o).2.2.2.2]

theorem moveBlock_visible (dt : ℚ) (L : List Block) (b : Block) :
    (moveBlock dt L b).visible = b.visible := by
  unfold moveBlock
  split
  · rfl
  · rw [resolve_visible, (integrateBlock_footprint dt b).2.2.2.2]

/-- Blocks that are invisible and out of reach of the moving block can be left
out of its inner loop. -/
theorem resolve_filter (L : List Block) :
    ∀ c : Block, (∀ o ∈ L, o.visible = false → PlanApart c o) →
      resolve c L = resolve c (L.filter fun o => o.visible) := by
  induction L with
  | nil => intro c _; rfl
  | cons o os ih =>
    intro c h
    have hrest : ∀ d : Block, d.id = c.id → d.position.x = c.position.x →
        d.position.z = c.position.z → d.size = c.size →
        ∀ x ∈ os, x.visible = false → PlanApart d x :=
      fun d h1 h2 h3 h4 x hx hxv =>
        planApart_congr c d x h1 h2 h3 h4 (h x (List.mem_cons_of_mem _ hx) hxv)
    cases hv : o.visible with
    | true =>
      rw [List.filter_cons_of_pos (by simpa using hv)]
      show resolve (collideWith c o) os = resolve (collideWith c o) (os.filter fun o => o.visible)
      obtain ⟨f1, f2, f3, f4, _⟩ := collideWith_footprint c o
      exact ih _ (hrest _ f1 f2 f3 f4)
    | false =>
      rw [List.filter_cons_of_neg (by simp [hv])]
      show resolve (collideWith c o) os = resolve c (os.filter fun o => o.visible)
      rw [collideWith_of_planApart c o (h o (List.mem_cons_self _ _) hv)]
      exact ih c (hrest c rfl rfl rfl rfl)

theorem moveBlock_filter (dt : ℚ) (L : List Block) (b : Block)
    (h : b.visible = true → b.isSleeping = false → ∀ o ∈ L, o.visible = false → PlanApart b o) :
    moveBlock dt L b = moveBlock dt (L.filter fun o => o.visible) b := by
  unfold moveBlock
  split
  · rfl
  · rename_i hskip
    have hv : b.visible = true := by
      cases hb : b.visible
      · simp [hb] at hskip
      · rfl
    have hs : b.isSleeping = false := by
      cases hb : b.isSleeping
      · rfl
      · simp [hb] at hskip
    obtain ⟨f1, f2, f3, f4, _⟩ := integrateBlock_footprint dt b
    exact resolve_filter L _
      (fun o ho hov => planApart_congr b _ o f1 f2 f3 f4 (h hv hs o ho hov))

theorem passFrom_filter (dt : ℚ) :
    ∀ todo done : List Block,
      (∀ c ∈ todo, c.visible = true → c.isSleeping = false →
        ∀ o ∈ done ++ todo, o.visible = false → PlanApart c o) →
      (passFrom dt done todo).filter (fun o => o.visible) =
        passFrom dt (done.filter fun o => o.visible) (todo.filter fun o => o.visible) := by
  intro todo
  induction todo with
  | nil => intro done _; simp [passFrom]
  | cons b rest ih =>
    intro done h
    have hnext : ∀ c ∈ rest, c.visible = true → c.isSleeping = false →
        ∀ o ∈ (done ++ [moveBlock dt (done ++ b :: rest) b]) ++ rest, o.visible = false →
          PlanApart c o := by
      intro c hc hcv hcs o ho hov
      apply h c (List.mem_cons_of_mem _ hc) hcv hcs o _ hov
      simp only [List.append_assoc, List.singleton_append, List.mem_append, List.mem_cons] at ho ⊢
      rcases ho with ho | ho | ho
      · exact Or.inl ho
      · right; left
        rw [ho] at hov ⊢
        rw [moveBlock_visible] at hov
        unfold moveBlock
        simp [hov]
      · exact Or.inr (Or.inr ho)
    rw [passFrom, ih _ hnext, List.filter_append]
    cases hv : b.visible with
    | false =>
      have hb1 : moveBlock dt (done ++ b :: rest) b = b := by
        unfold moveBlock
        simp [hv]
      rw [hb1, List.filter_cons_of_neg (by simp [hv]), List.filter_cons_of_neg (by simp [hv])]
      simp
    | true =>
      have hmv : (moveBlock dt (done ++ b :: rest) b).visible = true := by
        rw [moveBlock_visible]; exact hv
      rw [List.filter_cons_of_pos (by simpa using hmv), List.filter_nil,
        List.filter_cons_of_pos (by simpa using hv), passFrom,
        moveBlock_filter dt (done ++ b :: rest) b (fun hbv hbs => h b (List.mem_cons_self _ _) hbv hbs),
        List.filter_append, List.filter_cons_of_pos (by simpa using hv)]

/-- C14 fails as stated. An invisible cube under an awake visible cube stops it:
stepping and then removing the invisible blocks leaves the visible cube snapped
on top and asleep, removing them first lets it fall. -/
theorem C14_counterexample :
    (UpdatePhysics (1 / 60) ghostDemo).currentPartBlocks.filter (fun b => b.visible) ≠
      (UpdatePhysics (1 / 60)
        { ghostDemo with
          currentPartBlocks :=
            ghostDemo.currentPartBlocks.filter fun b => b.visible }).currentPartBlocks := by
  decide!

/-- C14, amended. Every block with `visible = false` is unchanged by
`UpdatePhysics()`. Invisible blocks still take part in the pairwise test as
obstacles; when every invisible block is out of reach of every visible awake
block (same id, or no overlap of the extents along x, or none along z),
removing the invisible blocks and then stepping gives the same scene as
stepping and then removing them. -/
theorem C14_invisible_blocks (t : ℚ) (s : AppState) :
    (∀ (k : Nat) (b : Block), s.currentPartBlocks[k]? = some b → b.visible = false →
        (UpdatePhysics t s).currentPartBlocks[k]? = some b) ∧
      ((∀ b ∈ s.currentPartBlocks, b.visible = true → b.isSleeping = false →
          ∀ o ∈ s.currentPartBlocks, o.visible = false → PlanApart b o) →
        (UpdatePhysics t s).currentPartBlocks.filter (fun b => b.visible) =
          (UpdatePhysics t
            { s with
              currentPartBlocks :=
                s.currentPartBlocks.filter fun b => b.visible }).currentPartBlocks) := by
  refine ⟨fun k b hb hv => UpdatePhysics_invisible t s k b hb hv, fun h => ?_⟩
  rw [UpdatePhysics_eq, UpdatePhysics_eq]
  cases s.settings.physics
  · rfl
  · simp only [if_true]
    have := passFrom_filter (clampDt t) s.currentPartBlocks [] (by simpa using h)
    simpa using this

theorem C14_invisible_blocks_witness :
    (UpdatePhysics (1 / 60) apartDemo).currentPartBlocks.filter (fun b => b.visible) =
      (UpdatePhysics (1 / 60)
        { apartDemo with
          currentPartBlocks :=
            apartDemo.currentPartBlocks.filter fun b => b.visible }).currentPartBlocks :=
  (C14_invisible_blocks (1 / 60) apartDemo).2 (by decide!)

/-! ### STL export -/

theorem stlHeader_length : stlHeader.length = 80 := by decide

theorem u32le_length (n : Nat) : (u32le n).length = 4 := rfl

theorem u32decode_u32le (n : Nat) (h : n < 4294967296) : u32decode (u32le n) = n := by
  unfold u32decode u32le
  simp only [List.getD_cons_zero, List.getD_cons_succ]
  omega

theorem triRecord_length (f32 : ℚ → Fin 4 → Nat) (v1 v2 v3 : Vector3) :
    (triRecord f32 v1 v2 v3).length = 50 := by
  unfold triRecord vector3Bytes floatBytes u16le
  simp only [List.length_append, List.length_ofFn, List.length_cons, List.length_nil]

theorem foldl_WriteTri (g : Nat × Nat × Nat → List Nat)
    (step : STLFile → Nat × Nat × Nat → STLFile)
    (hstep : ∀ o f, step o f =
      { bytes := o.bytes ++ g f, triCount := (o.triCount + 1) % 4294967296 })
    (fs : List (Nat × Nat × Nat)) :
    ∀ out : STLFile, out.triCount < 4294967296 →
      (fs.foldl step out).bytes = out.bytes ++ (fs.map g).flatten ∧
        (fs.foldl step out).triCount = (out.triCount + fs.length) % 4294967296 := by
  induction fs with
  | nil =>
    intro out h
    simp [Nat.mod_eq_of_lt h]
  | cons f fs ih =>
    intro out h
    obtain ⟨h1, h2⟩ := ih (step out f) (by rw [hstep]; exact Nat.mod_lt _ (by norm_num))
    rw [List.foldl_cons, h1, h2, hstep]
    simp only [List.map_cons, List.flatten_cons, List.append_assoc, List.length_cons,
      true_and]
    omega

/-- The export loop appends the records of every block, in order, and counts
them modulo `2^32`. -/
theorem exportBlock_spec (f32 : ℚ → Fin 4 → Nat) (out : STLFile) (b : Block)
    (h : out.triCount < 4294967296) :
    (exportBlock f32 out b).bytes = out.bytes ++ (blockRecords f32 b).flatten ∧
      (exportBlock f32 out b).triCount =
        (out.triCount + (blockRecords f32 b).length) % 4294967296 := by
  unfold exportBlock blockRecords
  split
  · simp [Nat.mod_eq_of_lt h]
  · have h1 := foldl_WriteTri
      (fun f => triRecord f32 ((cubeCorners b).getD f.1 ⟨0, 0, 0⟩)
        ((cubeCorners b).getD f.2.1 ⟨0, 0, 0⟩) ((cubeCorners b).getD f.2.2 ⟨0, 0, 0⟩))
      (fun o f =>
        WriteTri f32 o ((cubeCorners b).getD f.1 ⟨0, 0, 0⟩)
          ((cubeCorners b).getD f.2.1 ⟨0, 0, 0⟩) ((cubeCorners b).getD f.2.2 ⟨0, 0, 0⟩))
      (fun _ _ => rfl) cubeFaces out h
    rw [List.length_map]
    exact h1

theorem foldl_exportBlock (f32 : ℚ → Fin 4 → Nat) (scene : List Block) :
    ∀ out : STLFile, out.triCount < 4294967296 →
      (scene.foldl (exportBlock f32) out).bytes =
          out.bytes ++ ((scene.map (blockRecords f32)).flatten).flatten ∧
        (scene.foldl (exportBlock f32) out).triCount =
          (out.triCount + ((scene.map (blockRecords f32)).flatten).length) % 4294967296 := by
  induction scene with
  | nil =>
    intro out h
    simp [Nat.mod_eq_of_lt h]
  | cons b bs ih =>
    intro out h
    obtain ⟨h1, h2⟩ := exportBlock_spec f32 out b h
    obtain ⟨h3, h4⟩ := ih (exportBlock f32 out b) (by rw [h2]; exact Nat.mod_lt _ (by norm_num))
    rw [List.foldl_cons, h3, h4, h1, h2]
    simp only [List.map_cons, List.flatten_cons, List.flatten_append, List.append_assoc,
      List.length_append, true_and]
    omega

theorem blockRecords_length (f32 : ℚ → Fin 4 → Nat) (b : Block) :
    (blockRecords f32 b).length =
      if b.visible && b.type == ShapeType.SHAPE_CUBE then 12 else 0 := by
  unfold blockRecords
  cases hv : b.visible <;> cases ht : b.type <;> rfl

theorem records_length (f32 : ℚ → Fin 4 → Nat) (scene : List Block) :
    ((scene.map (blockRecords f32)).flatten).length =
      12 * (scene.filter fun b => b.visible && b.type == ShapeType.SHAPE_CUBE).length := by
  induction scene with
  | nil => rfl
  | cons b bs ih =>
    rw [List.map_cons, List.flatten_cons, List.length_append, ih, blockRecords_length,
      List.filter_cons]
    by_cases h : (b.visible && b.type == ShapeType.SHAPE_CUBE) = true
    · rw [if_pos h, if_pos h, List.length_cons]; omega
    · rw [if_neg h, if_neg h]; omega

theorem blockRecords_record_length (f32 : ℚ → Fin 4 → Nat) (b : Block) :
    ∀ r ∈ blockRecords f32 b, r.length = 50 := by
  intro r hr
  unfold blockRecords at hr
  split at hr
  · simp at hr
  · rw [List.mem_map] at hr
    obtain ⟨f, _, rfl⟩ := hr
    exact triRecord_length f32 _ _ _

/-- C17. When the output file opens, the file `ExportSTL` leaves is the 80-byte
header, the 4-byte triangle count and one 50-byte record per triangle, nothing
else; the number of records is 12 times the number of blocks that are visible
and of type `SHAPE_CUBE`; and the count field read back at byte offset 80 is the
number of records written, as a 32-bit unsigned value (modulo `2^32`). -/
theorem C17_export_count_exact (f32 : ℚ → Fin 4 → Nat) (s : AppState) :
    ∃ (file : List Nat) (records : List (List Nat)),
      (ExportSTL f32 true s).1 = some file ∧
      file = stlHeader ++ u32le (records.length % 4294967296) ++ records.flatten ∧
      stlHeader.length = 80 ∧
      (u32le (records.length % 4294967296)).length = 4 ∧
      (∀ r ∈ records, r.length = 50) ∧
      records.length =
        12 * (s.currentPartBlocks.filter
          fun b => b.visible && b.type == ShapeType.SHAPE_CUBE).length ∧
      u32decode ((file.drop 80).take 4) = records.length % 4294967296 := by
  obtain ⟨h1, h2⟩ := foldl_exportBlock f32 s.currentPartBlocks
    { bytes := stlHeader ++ u32le 0, triCount := 0 } (by norm_num)
  simp only [Nat.zero_add] at h1 h2
  refine ⟨_, (s.currentPartBlocks.map (blockRecords f32)).flatten, rfl, ?_, stlHeader_length,
    rfl, ?_, records_length f32 _, ?_⟩
  · show (s.currentPartBlocks.foldl (exportBlock f32) _).bytes.take 80 ++
      u32le (s.currentPartBlocks.foldl (exportBlock f32) _).triCount ++
      (s.currentPartBlocks.foldl (exportBlock f32) _).bytes.drop 84 = _
    rw [h1, h2, List.append_assoc stlHeader, List.take_left' stlHeader_length,
      ← List.append_assoc stlHeader,
      List.drop_left' (by rw [List.length_append, stlHeader_length, u32le_length])]
  · intro r hr
    rw [List.mem_flatten] at hr
    obtain ⟨l, hl, hrl⟩ := hr
    rw [List.mem_map] at hl
    obtain ⟨b, _, rfl⟩ := hl
    exact blockRecords_record_length f32 b r hrl
  · show u32decode (((s.currentPartBlocks.foldl (exportBlock f32) _).bytes.take 80 ++
      u32le (s.currentPartBlocks.foldl (exportBlock f32) _).triCount ++
      (s.currentPartBlocks.foldl (exportBlock f32) _).bytes.drop 84).drop 80 |>.take 4) = _
    rw [h1, h2, List.append_assoc stlHeader, List.take_left' stlHeader_length,
      List.append_assoc stlHeader, List.drop_left' stlHeader_length,
      List.take_left' (u32le_length _)]
    exact u32decode_u32le _ (Nat.mod_lt _ (by norm_num))

/-- The example of C17: three visible cubes and one invisible cube give a file
of 36 triangle records, with 36 in the count field. -/
theorem C17_export_count_exact_witness :
    ∃ (file : List Nat) (records : List (List Nat)),
      (ExportSTL (fun _ _ => 0) true exportDemo).1 = some file ∧
      file = stlHeader ++ u32le 36 ++ records.flatten ∧
      records.length = 36 ∧ (∀ r ∈ records, r.length = 50) ∧
      u32decode ((file.drop 80).take 4) = 36 := by
  obtain ⟨file, records, h1, h2, _, _, h5, h6, h7⟩ :=
    C17_export_count_exact (fun _ _ => 0) exportDemo
  have h36 : records.length = 36 := by
    rw [h6]
    decide
  rw [h36] at h2 h7
  exact ⟨file, records, h1, h2, h36, h5, h7⟩

/-! ### Binary32 rounding -/

theorem roundHalfEven_err (x : ℚ) : |(roundHalfEven x : ℚ) - x| ≤ 1 / 2 := by
  have h1 := Int.floor_le x
  have h2 := Int.lt_floor_add_one x
  unfold roundHalfEven
  rw [abs_le]
  split_ifs with a b c <;> push_cast <;> constructor <;> linarith

theorem roundHalfEven_mono (x y : ℚ) (h : x ≤ y) : roundHalfEven x ≤ roundHalfEven y := by
  by_contra hlt
  push_neg at hlt
  have h1 : (roundHalfEven y : ℚ) + 1 ≤ roundHalfEven x := by exact_mod_cast hlt
  have ex := abs_le.mp (roundHalfEven_err x)
  have ey := abs_le.mp (roundHalfEven_err y)
  have hxy : x = y := by linarith
  rw [hxy] at hlt
  exact lt_irrefl _ hlt

theorem roundHalfEven_intCast (n : ℤ) : roundHalfEven (n : ℚ) = n := by
  unfold roundHalfEven
  rw [Int.floor_intCast, sub_self, if_pos (by norm_num)]

theorem log2Fuel_spec (f : ℕ) :
    ∀ n : ℕ, n ≤ f → n ≠ 0 → 2 ^ log2Fuel f n ≤ n ∧ n < 2 ^ (log2Fuel f n + 1) := by
  induction f with
  | zero => intro n h0 h1; omega
  | succ f ih =>
    intro n hn h0
    unfold log2Fuel
    split
    · rename_i h2
      obtain ⟨i1, i2⟩ := ih (n / 2) (by omega) (by omega)
      constructor
      · rw [pow_succ]
        omega
      · rw [pow_succ]
        omega
    · constructor <;> simp <;> omega

theorem natLog2_spec (n : ℕ) (h : n ≠ 0) : 2 ^ natLog2 n ≤ n ∧ n < 2 ^ (natLog2 n + 1) :=
  log2Fuel_spec n n (le_refl n) h

theorem two_zpow_pos (e : ℤ) : (0 : ℚ) < 2 ^ e := zpow_pos (by norm_num) e

/-- The bit lengths of numerator and denominator locate a non-zero rational in
its binade. -/
theorem log2Floor_spec (q : ℚ) (hq : q ≠ 0) :
    (2 : ℚ) ^ log2Floor q ≤ |q| ∧ |q| < 2 ^ (log2Floor q + 1) := by
  have hn : q.num.natAbs ≠ 0 := by
    simpa using Rat.num_ne_zero.mpr hq
  have hd : q.den ≠ 0 := q.den_nz
  have habs : |q| = (q.num.natAbs : ℚ) / (q.den : ℚ) := by
    conv_lhs => rw [← Rat.num_div_den q]
    rw [abs_div, Nat.cast_natAbs, Int.cast_abs, abs_of_pos (by exact_mod_cast q.den_pos :
      (0 : ℚ) < (q.den : ℚ))]
  have hdpos : (0 : ℚ) < (q.den : ℚ) := by exact_mod_cast q.den_pos
  have hn1 : ((2 : ℚ) ^ (natLog2 q.num.natAbs)) ≤ (q.num.natAbs : ℚ) := by
    exact_mod_cast (natLog2_spec _ hn).1
  have hn2 : (q.num.natAbs : ℚ) < (2 : ℚ) ^ (natLog2 q.num.natAbs + 1) := by
    exact_mod_cast (natLog2_spec _ hn).2
  have hd1 : ((2 : ℚ) ^ (natLog2 q.den)) ≤ (q.den : ℚ) := by
    exact_mod_cast (natLog2_spec _ hd).1
  have hd2 : (q.den : ℚ) < (2 : ℚ) ^ (natLog2 q.den + 1) := by
    exact_mod_cast (natLog2_spec _ hd).2
  have hpa : (0 : ℚ) < 2 ^ (natLog2 q.num.natAbs) := by positivity
  have hpb : (0 : ℚ) < 2 ^ (natLog2 q.den) := by positivity
  -- the two crude bounds `2^(a-b-1) < |q| < 2^(a-b+1)`
  have hlow : (2 : ℚ) ^ ((natLog2 q.num.natAbs : ℤ) - (natLog2 q.den : ℤ) - 1) ≤ |q| := by
    rw [habs, sub_sub, zpow_sub₀ (by norm_num), le_div_iff₀ hdpos, div_mul_eq_mul_div,
      div_le_iff₀ (two_zpow_pos _)]
    have e1 : (2 : ℚ) ^ ((natLog2 q.den : ℤ) + 1) = 2 ^ (natLog2 q.den + 1) := by
      rw [← zpow_natCast]; push_cast; rfl
    rw [e1, zpow_natCast]
    calc (2 : ℚ) ^ (natLog2 q.num.natAbs) * (q.den : ℚ)
        ≤ (q.num.natAbs : ℚ) * (q.den : ℚ) := by
          exact mul_le_mul_of_nonneg_right hn1 (le_of_lt hdpos)
      _ ≤ (q.num.natAbs : ℚ) * 2 ^ (natLog2 q.den + 1) := by
          exact mul_le_mul_of_nonneg_left (le_of_lt hd2) (by positivity)
  have hhigh : |q| < (2 : ℚ) ^ ((natLog2 q.num.natAbs : ℤ) - (natLog2 q.den : ℤ) + 1) := by
    rw [habs, sub_add_eq_add_sub, zpow_sub₀ (by norm_num), div_lt_iff₀ hdpos,
      div_mul_eq_mul_div, lt_div_iff₀ (two_zpow_pos _)]
    have e1 : (2 : ℚ) ^ ((natLog2 q.num.natAbs : ℤ) + 1) = 2 ^ (natLog2 q.num.natAbs + 1) := by
      rw [← zpow_natCast]; push_cast; rfl
    rw [e1, zpow_natCast]
    calc (q.num.natAbs : ℚ) * 2 ^ (natLog2 q.den)
        ≤ (q.num.natAbs : ℚ) * (q.den : ℚ) := by
          exact mul_le_mul_of_nonneg_left hd1 (by positivity)
      _ < 2 ^ (natLog2 q.num.natAbs + 1) * (q.den : ℚ) := by
          exact mul_lt_mul_of_pos_right hn2 hdpos
  unfold log2Floor
  split
  · rename_i h
    exact ⟨hlow, by rw [sub_add_cancel]; exact h⟩
  · rename_i h
    exact ⟨not_lt.mp h, hhigh⟩

/-- A rational in the binade `[2^E, 2^(E+1))` has binary exponent `E`. -/
theorem log2Floor_eq (q : ℚ) (E : ℤ) (h1 : (2 : ℚ) ^ E ≤ |q|) (h2 : |q| < 2 ^ (E + 1)) :
    log2Floor q = E := by
  have hq : q ≠ 0 := by
    intro h0
    rw [h0, abs_zero] at h1
    exact absurd h1 (not_le.mpr (two_zpow_pos E))
  obtain ⟨s1, s2⟩ := log2Floor_spec q hq
  have a1 : (2 : ℚ) ^ E < 2 ^ (log2Floor q + 1) := lt_of_le_of_lt h1 s2
  have a2 : (2 : ℚ) ^ log2Floor q < 2 ^ (E + 1) := lt_of_le_of_lt s1 h2
  rw [zpow_lt_zpow_iff_right₀ (by norm_num)] at a1 a2
  omega

theorem expo32_eq (q : ℚ) (E : ℤ) (hE : -126 ≤ E) (h1 : (2 : ℚ) ^ E ≤ |q|)
    (h2 : |q| < 2 ^ (E + 1)) : expo32 q = E := by
  unfold expo32
  rw [log2Floor_eq q E h1 h2]
  exact max_eq_left hE

theorem expo32_ge (q : ℚ) : -126 ≤ expo32 q := le_max_right _ _

theorem expo32_upper (q : ℚ) (hq : q ≠ 0) : |q| < 2 ^ (expo32 q + 1) := by
  have h := (log2Floor_spec q hq).2
  refine lt_of_lt_of_le h (zpow_le_zpow_right₀ (by norm_num) ?_)
  have : log2Floor q ≤ expo32 q := le_max_left _ _
  omega

theorem expo32_lower (q : ℚ) (hq : q ≠ 0) (h : -126 < expo32 q) : (2 : ℚ) ^ expo32 q ≤ |q| := by
  have hs := (log2Floor_spec q hq).1
  have : expo32 q = log2Floor q := by
    unfold expo32 at h ⊢
    rcases max_cases (log2Floor q) (-126) with ⟨h1, _⟩ | ⟨h1, _⟩
    · exact h1
    · rw [h1] at h; exact absurd h (lt_irrefl _)
  rw [this]
  exact hs

theorem fl32_zero : fl32 0 = 0 := by
  unfold fl32
  rw [zero_div, show roundHalfEven 0 = 0 from roundHalfEven_intCast 0]
  simp

/-- Rounding inside a known binade. -/
theorem fl32_of_binade (q : ℚ) (E : ℤ) (hE : -126 ≤ E) (h1 : (2 : ℚ) ^ E ≤ |q|)
    (h2 : |q| < 2 ^ (E + 1)) :
    fl32 q = (roundHalfEven (q / 2 ^ (E - 23)) : ℚ) * 2 ^ (E - 23) := by
  unfold fl32
  rw [expo32_eq q E hE h1 h2]

theorem fl32_nonneg (x : ℚ) (h : 0 ≤ x) : 0 ≤ fl32 x := by
  unfold fl32
  have hv : (0 : ℚ) ≤ x / 2 ^ (expo32 x - 23) := div_nonneg h (le_of_lt (two_zpow_pos _))
  have hr : (0 : ℤ) ≤ roundHalfEven (x / 2 ^ (expo32 x - 23)) := by
    have := roundHalfEven_mono 0 _ hv
    rwa [show roundHalfEven 0 = 0 from roundHalfEven_intCast 0] at this
  exact mul_nonneg (by exact_mod_cast hr) (le_of_lt (two_zpow_pos _))

theorem fl32_nonpos (x : ℚ) (h : x ≤ 0) : fl32 x ≤ 0 := by
  unfold fl32
  have hv : x / 2 ^ (expo32 x - 23) ≤ 0 := div_nonpos_of_nonpos_of_nonneg h (le_of_lt (two_zpow_pos _))
  have hr : roundHalfEven (x / 2 ^ (expo32 x - 23)) ≤ (0 : ℤ) := by
    have := roundHalfEven_mono _ 0 hv
    rwa [show roundHalfEven 0 = 0 from roundHalfEven_intCast 0] at this
  exact mul_nonpos_of_nonpos_of_nonneg (by exact_mod_cast hr) (le_of_lt (two_zpow_pos _))

/-- Rounding does not carry a value across a power of two: below `2^k` in
magnitude before, at most `2^k` after. -/
theorem fl32_abs_le (x : ℚ) (k : ℤ) (hk : -125 ≤ k) (h : |x| < 2 ^ k) : |fl32 x| ≤ 2 ^ k := by
  by_cases hx : x = 0
  · rw [hx, fl32_zero, abs_zero]
    exact le_of_lt (two_zpow_pos k)
  have he : expo32 x ≤ k - 1 := by
    by_contra hcon
    push_neg at hcon
    have h126 : -126 < expo32 x := by omega
    have hl := expo32_lower x hx h126
    have : (2 : ℚ) ^ expo32 x < 2 ^ k := lt_of_le_of_lt hl h
    rw [zpow_lt_zpow_iff_right₀ (by norm_num)] at this
    omega
  obtain ⟨m, hm⟩ : ∃ m : ℕ, (m : ℤ) = k - (expo32 x - 23) := ⟨(k - (expo32 x - 23)).toNat, by omega⟩
  have hN : (2 : ℚ) ^ k = ((2 ^ m : ℤ) : ℚ) * 2 ^ (expo32 x - 23) := by
    push_cast
    rw [← zpow_natCast, hm, ← zpow_add₀ (by norm_num)]
    congr 1
    omega
  have hq := two_zpow_pos (expo32 x - 23)
  have hv : |x / 2 ^ (expo32 x - 23)| < ((2 ^ m : ℤ) : ℚ) := by
    rw [abs_div, abs_of_pos hq, div_lt_iff₀ hq, ← hN]
    exact h
  have hv2 := abs_lt.mp hv
  have hr1 : roundHalfEven (x / 2 ^ (expo32 x - 23)) ≤ 2 ^ m := by
    have := roundHalfEven_mono _ _ (le_of_lt hv2.2)
    rwa [roundHalfEven_intCast] at this
  have hr2 : -(2 ^ m : ℤ) ≤ roundHalfEven (x / 2 ^ (expo32 x - 23)) := by
    have := roundHalfEven_mono _ _ (le_of_lt hv2.1)
    rw [← Int.cast_neg, roundHalfEven_intCast] at this
    exact this
  unfold fl32
  rw [abs_mul, abs_of_pos hq, hN]
  apply mul_le_mul_of_nonneg_right _ (le_of_lt hq)
  rw [abs_le]
  constructor
  · exact_mod_cast hr2
  · exact_mod_cast hr1

/-- Rounding keeps a negative value at or below the power of two it is below. -/
theorem fl32_le_neg_pow (x : ℚ) (j : ℤ) (hj : -126 ≤ j) (h : x ≤ -2 ^ j) : fl32 x ≤ -2 ^ j := by
  have hjpos := two_zpow_pos j
  have hxneg : x < 0 := by linarith
  have hx : x ≠ 0 := ne_of_lt hxneg
  have habs : |x| = -x := abs_of_neg hxneg
  have hup := expo32_upper x hx
  have hje : j ≤ expo32 x := by
    have : (2 : ℚ) ^ j < 2 ^ (expo32 x + 1) := by
      refine lt_of_le_of_lt ?_ hup
      rw [habs]; linarith
    rw [zpow_lt_zpow_iff_right₀ (by norm_num)] at this
    omega
  have hlow : (2 : ℚ) ^ expo32 x ≤ |x| := by
    by_cases h126 : -126 < expo32 x
    · exact expo32_lower x hx h126
    · have : expo32 x = j := by
        have := expo32_ge x
        omega
      rw [this, habs]; linarith
  have hq := two_zpow_pos (expo32 x - 23)
  have hpow : (2 : ℚ) ^ expo32 x = (2 : ℚ) ^ (23 : ℤ) * 2 ^ (expo32 x - 23) := by
    rw [← zpow_add₀ (by norm_num)]
    congr 1
    omega
  have hc : (((-(2 ^ 23) : ℤ)) : ℚ) = -(2 : ℚ) ^ (23 : ℤ) := by norm_num
  have hv : x / 2 ^ (expo32 x - 23) ≤ ((-(2 ^ 23) : ℤ) : ℚ) := by
    rw [div_le_iff₀ hq, hc, neg_mul, ← hpow]
    rw [habs] at hlow
    linarith
  have hr : roundHalfEven (x / 2 ^ (expo32 x - 23)) ≤ -(2 ^ 23) := by
    have := roundHalfEven_mono _ _ hv
    rwa [roundHalfEven_intCast] at this
  have hr2 : (roundHalfEven (x / 2 ^ (expo32 x - 23)) : ℚ) ≤ -(2 : ℚ) ^ (23 : ℤ) := by
    rw [← hc]
    exact_mod_cast hr
  unfold fl32
  calc (roundHalfEven (x / 2 ^ (expo32 x - 23)) : ℚ) * 2 ^ (expo32 x - 23)
      ≤ -(2 : ℚ) ^ (23 : ℤ) * 2 ^ (expo32 x - 23) :=
        mul_le_mul_of_nonneg_right hr2 (le_of_lt hq)
    _ = -2 ^ expo32 x := by rw [neg_mul, ← hpow]
    _ ≤ -2 ^ j := neg_le_neg (zpow_le_zpow_right₀ (by norm_num) hje)

/-! ### A single falling block in binary32 -/

theorem collideWith32_of_id_eq (c o : Block) (h : c.id = o.id) : collideWith32 c o = c := by
  unfold collideWith32
  rw [if_pos h]

theorem innerLoop32_single (b : Block) : innerLoop32 0 [b] = [b] := by
  unfold innerLoop32
  simp [List.range_succ, innerStep32, collideWith32_of_id_eq]

/-- On a one-block scene the binary32 pass is `soloStep32` of the block. -/
theorem physicsPass32_single (dt : ℚ) (b : Block) :
    physicsPass32 dt [b] = [soloStep32 dt b] := by
  unfold physicsPass32 soloStep32
  simp only [List.length_singleton, List.range_succ, List.range_zero, List.nil_append,
    List.foldl_cons, List.foldl_nil]
  unfold stepBlock32
  simp only [List.getElem?_cons_zero]
  split
  · rfl
  · simp only [List.set_cons_zero]
    exact innerLoop32_single _

theorem UpdatePhysics32_solo (t : ℚ) (s : AppState) (b : Block)
    (hphys : s.settings.physics = true) (hsc : s.currentPartBlocks = [b]) (ht : dtCap32 ≤ t) :
    UpdatePhysics32 t s = { s with currentPartBlocks := [soloStep32 dtCap32 b] } := by
  have hdt : (if t > dtCap32 then dtCap32 else t) = dtCap32 := by
    split
    · rfl
    · rename_i hn
      exact le_antisymm (not_lt.mp hn) ht
  unfold UpdatePhysics32
  rw [hphys, hsc]
  simp only [Bool.not_true, Bool.false_eq_true, if_false, hdt, physicsPass32_single]

theorem iterate_UpdatePhysics32_solo (t : ℚ) (ht : dtCap32 ≤ t) (k : ℕ) :
    ∀ (s : AppState) (b : Block), s.settings.physics = true → s.currentPartBlocks = [b] →
      ((UpdatePhysics32 t)^[k] s).currentPartBlocks = [(soloStep32 dtCap32)^[k] b] := by
  induction k with
  | zero => intro s b _ hsc; exact hsc
  | succ k ih =>
    intro s b hphys hsc
    rw [Function.iterate_succ_apply, Function.iterate_succ_apply,
      UpdatePhysics32_solo t s b hphys hsc ht]
    exact ih _ _ hphys rfl

/-- The binary32 integration with the floor test, in terms of `fallStep32`. -/
theorem integrateBlock32_eq (dt : ℚ) (b : Block) :
    integrateBlock32 dt b =
      if fl32 ((fallStep32 dt (b.position.y, b.velocity.y)).1 - fl32 (b.size.y / 2)) < 0 then
        { setYV b (fl32 (b.size.y / 2)) 0 with isSleeping := true }
      else
        setYV b (fallStep32 dt (b.position.y, b.velocity.y)).1
          (fallStep32 dt (b.position.y, b.velocity.y)).2 := by
  unfold integrateBlock32 fallStep32 setYV
  dsimp only

theorem soloStep32_of_sleeping (dt : ℚ) (b : Block) (h : b.isSleeping = true) :
    soloStep32 dt b = b := by
  unfold soloStep32
  simp [h]

theorem soloStep32_of_awake (dt : ℚ) (b : Block) (hv : b.visible = true)
    (hs : b.isSleeping = false) : soloStep32 dt b = integrateBlock32 dt b := by
  unfold soloStep32
  simp [hv, hs]

/-! #### A block that never lands -/

theorem fl32_near_two42 (x : ℚ) (h1 : 4398046511104 - 131072 ≤ x) (h2 : x ≤ 4398046511104) :
    fl32 x = 4398046511104 := by
  rcases eq_or_lt_of_le h2 with h | h
  · rw [h]
    decide!
  · have hx : |x| = x := abs_of_pos (by linarith)
    have e41 : (2 : ℚ) ^ (41 : ℤ) = 2199023255552 := by norm_num
    have e42 : (2 : ℚ) ^ ((41 : ℤ) + 1) = 4398046511104 := by norm_num
    have e18 : (2 : ℚ) ^ ((41 : ℤ) - 23) = 262144 := by norm_num
    rw [fl32_of_binade x 41 (by norm_num) (by rw [hx, e41]; linarith) (by rw [hx, e42]; exact h),
      e18]
    have lo : roundHalfEven (16777216 - 1 / 2) ≤ roundHalfEven (x / 262144) :=
      roundHalfEven_mono _ _ (by rw [le_div_iff₀ (by norm_num)]; linarith)
    have hi : roundHalfEven (x / 262144) ≤ roundHalfEven ((16777216 : ℤ) : ℚ) :=
      roundHalfEven_mono _ _ (by rw [div_le_iff₀ (by norm_num)]; push_cast; linarith)
    rw [roundHalfEven_intCast] at hi
    have lo2 : roundHalfEven (16777216 - 1 / 2) = 16777216 := by decide!
    rw [lo2] at lo
    have : roundHalfEven (x / 262144) = 16777216 := le_antisymm hi lo
    rw [this]
    norm_num

theorem fl32_near_neg_two22 (x : ℚ) (h1 : -4194304 - 1 / 4 ≤ x) (h2 : x ≤ -4194304) :
    fl32 x = -4194304 := by
  have hx : |x| = -x := abs_of_neg (by linarith)
  have e22 : (2 : ℚ) ^ (22 : ℤ) = 4194304 := by norm_num
  have e23 : (2 : ℚ) ^ ((22 : ℤ) + 1) = 8388608 := by norm_num
  have em1 : (2 : ℚ) ^ ((22 : ℤ) - 23) = 1 / 2 := by norm_num
  rw [fl32_of_binade x 22 (by norm_num) (by rw [hx, e22]; linarith) (by rw [hx, e23]; linarith),
    em1]
  have lo : roundHalfEven (-8388608 - 1 / 2) ≤ roundHalfEven (x / (1 / 2)) :=
    roundHalfEven_mono _ _ (by rw [le_div_iff₀ (by norm_num)]; linarith)
  have hi : roundHalfEven (x / (1 / 2)) ≤ roundHalfEven ((-8388608 : ℤ) : ℚ) :=
    roundHalfEven_mono _ _ (by rw [div_le_iff₀ (by norm_num)]; push_cast; linarith)
  rw [roundHalfEven_intCast] at hi
  have lo2 : roundHalfEven (-8388608 - 1 / 2) = -8388608 := by decide!
  rw [lo2] at lo
  have : roundHalfEven (x / (1 / 2)) = -8388608 := le_antisymm hi lo
  rw [this]
  norm_num

theorem gdt32_bounds : 0 ≤ fl32 (gravity32 * dtCap32) ∧ fl32 (gravity32 * dtCap32) ≤ 1 / 4 := by
  constructor <;> decide!

theorem dtCap32_bounds : 0 < dtCap32 ∧ dtCap32 < 1 / 32 := by
  constructor <;> decide!

theorem fl32_half : fl32 (1 / 2) = 1 / 2 := by decide!

/-- At height `2^42` with a velocity between `-2^22` and `0`, one binary32 step
leaves the height where it is and the velocity in that range: the position
update is absorbed by the rounding and the velocity saturates at `-2^22`. -/
theorem fallStep32_sky (v : ℚ) (h1 : -4194304 ≤ v) (h2 : v ≤ 0) :
    (fallStep32 dtCap32 (4398046511104, v)).1 = 4398046511104 ∧
      -4194304 ≤ (fallStep32 dtCap32 (4398046511104, v)).2 ∧
      (fallStep32 dtCap32 (4398046511104, v)).2 ≤ 0 := by
  obtain ⟨g0, g1⟩ := gdt32_bounds
  obtain ⟨d0, d1⟩ := dtCap32_bounds
  have hvlo : -4194304 ≤ fl32 (v - fl32 (gravity32 * dtCap32)) := by
    by_cases hc : v - fl32 (gravity32 * dtCap32) ≤ -4194304
    · rw [fl32_near_neg_two22 _ (by linarith) hc]
    · push_neg at hc
      have habs : |v - fl32 (gravity32 * dtCap32)| < (2 : ℚ) ^ (22 : ℤ) := by
        rw [abs_lt]
        norm_num
        constructor <;> linarith
      have := fl32_abs_le _ 22 (by norm_num) habs
      rw [abs_le] at this
      norm_num at this
      exact this.1
  have hvhi : fl32 (v - fl32 (gravity32 * dtCap32)) ≤ 0 := fl32_nonpos _ (by linarith)
  have hp : |fl32 (v - fl32 (gravity32 * dtCap32)) * dtCap32| < (2 : ℚ) ^ (17 : ℤ) := by
    rw [abs_lt]
    norm_num
    constructor <;> nlinarith
  have hp2 := abs_le.mp (fl32_abs_le _ 17 (by norm_num) hp)
  norm_num at hp2
  have hp3 : fl32 (fl32 (v - fl32 (gravity32 * dtCap32)) * dtCap32) ≤ 0 :=
    fl32_nonpos _ (mul_nonpos_of_nonpos_of_nonneg hvhi (le_of_lt d0))
  unfold fallStep32
  dsimp only
  exact ⟨fl32_near_two42 _ (by linarith) (by linarith), hvlo, hvhi⟩

theorem soloStep32_sky (b : Block) (hy : b.position.y = 4398046511104)
    (h1 : -4194304 ≤ b.velocity.y) (h2 : b.velocity.y ≤ 0) (hs : b.isSleeping = false)
    (hv : b.visible = true) (hsz : b.size.y = 1) :
    (soloStep32 dtCap32 b).position.y = 4398046511104 ∧
      -4194304 ≤ (soloStep32 dtCap32 b).velocity.y ∧ (soloStep32 dtCap32 b).velocity.y ≤ 0 ∧
      (soloStep32 dtCap32 b).isSleeping = false ∧ (soloStep32 dtCap32 b).visible = true ∧
      (soloStep32 dtCap32 b).size.y = 1 := by
  obtain ⟨f1, f2, f3⟩ := fallStep32_sky b.velocity.y h1 h2
  rw [soloStep32_of_awake dtCap32 b hv hs, integrateBlock32_eq, hy, hsz, f1, fl32_half,
    fl32_near_two42 _ (by norm_num) (by norm_num), if_neg (by norm_num)]
  exact ⟨rfl, f2, f3, hs, hv, hsz⟩

theorem iterate_soloStep32_sky (n : ℕ) :
    ((soloStep32 dtCap32)^[n] skyCube).position.y = 4398046511104 ∧
      -4194304 ≤ ((soloStep32 dtCap32)^[n] skyCube).velocity.y ∧
      ((soloStep32 dtCap32)^[n] skyCube).velocity.y ≤ 0 ∧
      ((soloStep32 dtCap32)^[n] skyCube).isSleeping = false ∧
      ((soloStep32 dtCap32)^[n] skyCube).visible = true ∧
      ((soloStep32 dtCap32)^[n] skyCube).size.y = 1 := by
  induction n with
  | zero => exact ⟨rfl, by decide, by decide, rfl, rfl, rfl⟩
  | succ n ih =>
    rw [Function.iterate_succ_apply']
    obtain ⟨a1, a2, a3, a4, a5, a6⟩ := ih
    exact soloStep32_sky _ a1 a2 a3 a4 a5 a6

/-- C13 fails as stated. The unit cube at height `2^42` meets every hypothesis
of the claim (visible, awake, `size.y ≥ 0`, zero velocity, lower face above
the floor, physics enabled, every frame time equal to the capped `dt`), and in
binary32 it is asleep after no number of steps: it never comes to rest. -/
theorem C13_counterexample :
    skyDemo.settings.physics = true ∧ skyDemo.currentPartBlocks = [skyCube] ∧
      skyCube.visible = true ∧ skyCube.isSleeping = false ∧ 0 ≤ skyCube.size.y ∧
      skyCube.velocity = ⟨0, 0, 0⟩ ∧ 0 ≤ skyCube.position.y - skyCube.size.y / 2 ∧
      ¬ ∃ (n : ℕ) (b1 : Block),
        ((UpdatePhysics32 dtCap32)^[n] skyDemo).currentPartBlocks = [b1] ∧
          b1.isSleeping = true := by
  refine ⟨rfl, rfl, rfl, rfl, by decide, rfl, by decide!, ?_⟩
  rintro ⟨n, b1, hb, hs⟩
  rw [iterate_UpdatePhysics32_solo dtCap32 (le_refl _) n skyDemo skyCube rfl rfl] at hb
  have h := (iterate_soloStep32_sky n).2.2.2.1
  rw [List.cons.injEq] at hb
  rw [hb.1, hs] at h
  exact Bool.noConfusion h

/-! #### The drop from height 5 -/

theorem setYV_self (b : Block) : setYV b b.position.y b.velocity.y = b := rfl

/-- Along the drop from height 5 the lone block is either at rest on the floor,
or it is the start block with the height and velocity of the binary32
trajectory, and the floor test of the step that produced it did not fire. -/
theorem soloStep32_five (b : Block) (hv : b.visible = true) (hs : b.isSleeping = false)
    (hy : b.position.y = 5) (hvy : b.velocity.y = 0) :
    ∀ k : ℕ,
      (((soloStep32 dtCap32)^[k] b).position.y = fl32 (b.size.y / 2) ∧
          ((soloStep32 dtCap32)^[k] b).velocity.y = 0 ∧
          ((soloStep32 dtCap32)^[k] b).isSleeping = true) ∨
        ((soloStep32 dtCap32)^[k] b =
            setYV b ((fallStep32 dtCap32)^[k] (5, 0)).1 ((fallStep32 dtCap32)^[k] (5, 0)).2 ∧
          (1 ≤ k →
            ¬ fl32 (((fallStep32 dtCap32)^[k] (5, 0)).1 - fl32 (b.size.y / 2)) < 0)) := by
  intro k
  induction k with
  | zero =>
    right
    refine ⟨?_, fun h => absurd h (by norm_num)⟩
    simp only [Function.iterate_zero, id_eq]
    rw [← hy, ← hvy]
    exact (setYV_self b).symm
  | succ k ih =>
    rw [Function.iterate_succ_apply', Function.iterate_succ_apply']
    rcases ih with ⟨r1, r2, r3⟩ | ⟨hc, _⟩
    · left
      rw [soloStep32_of_sleeping _ _ r3]
      exact ⟨r1, r2, r3⟩
    · have hstep := soloStep32_of_awake dtCap32
        (setYV b ((fallStep32 dtCap32)^[k] (5, 0)).1 ((fallStep32 dtCap32)^[k] (5, 0)).2) hv hs
      have key : integrateBlock32 dtCap32
          (setYV b ((fallStep32 dtCap32)^[k] (5, 0)).1 ((fallStep32 dtCap32)^[k] (5, 0)).2) =
          if fl32 ((fallStep32 dtCap32 ((fallStep32 dtCap32)^[k] (5, 0))).1 -
              fl32 (b.size.y / 2)) < 0 then
            { setYV b (fl32 (b.size.y / 2)) 0 with isSleeping := true }
          else
            setYV b (fallStep32 dtCap32 ((fallStep32 dtCap32)^[k] (5, 0))).1
              (fallStep32 dtCap32 ((fallStep32 dtCap32)^[k] (5, 0))).2 :=
        integrateBlock32_eq _ _
      rw [hc, hstep, key]
      by_cases hn : fl32 ((fallStep32 dtCap32 ((fallStep32 dtCap32)^[k] (5, 0))).1 -
          fl32 (b.size.y / 2)) < 0
      · left
        rw [if_pos hn]
        exact ⟨rfl, rfl, rfl⟩
      · right
        rw [if_neg hn]
        exact ⟨rfl, fun _ => hn⟩

set_option maxRecDepth 100000 in
theorem fall32_five_below : ((fallStep32 dtCap32)^[63] (5, 0)).1 ≤ -(1 / 32) := by
  decide!

/-- C13, amended. With physics enabled and every frame time at or above the cap
(every step integrates with `0.016f`), a scene whose only block is visible,
awake, of size `size.y ≥ 0`, with zero velocity and `position.y = 5` reaches in
the binary32 computation, after a number `n ≤ 63` of steps, the state
`position.y = size.y/2.0f` (the binary32 quotient), `velocity.y = 0`,
`isSleeping = true`, and is in that state after every later step. -/
theorem C13_drop_from_five_rests (t : ℚ) (s : AppState) (b : Block)
    (hphys : s.settings.physics = true) (hscene : s.currentPartBlocks = [b])
    (hvis : b.visible = true) (hawake : b.isSleeping = false) (hsize : 0 ≤ b.size.y)
    (hvel : b.velocity = ⟨0, 0, 0⟩) (hheight : b.position.y = 5) (ht : dtCap32 ≤ t) :
    ∃ n : ℕ, n ≤ 63 ∧
      ∀ k : ℕ, n ≤ k → ∃ b1 : Block,
        ((UpdatePhysics32 t)^[k] s).currentPartBlocks = [b1] ∧
          b1.position.y = fl32 (b.size.y / 2) ∧ b1.velocity.y = 0 ∧ b1.isSleeping = true := by
  have hrest : ((soloStep32 dtCap32)^[63] b).position.y = fl32 (b.size.y / 2) ∧
      ((soloStep32 dtCap32)^[63] b).velocity.y = 0 ∧
      ((soloStep32 dtCap32)^[63] b).isSleeping = true := by
    rcases soloStep32_five b hvis hawake hheight (by rw [hvel]) 63 with h | ⟨_, h⟩
    · exact h
    · exfalso
      apply h (by norm_num)
      have hs0 : 0 ≤ fl32 (b.size.y / 2) := fl32_nonneg _ (by linarith)
      have hx : ((fallStep32 dtCap32)^[63] (5, 0)).1 - fl32 (b.size.y / 2) ≤
          -(2 : ℚ) ^ (-5 : ℤ) := by
        have e : (2 : ℚ) ^ (-5 : ℤ) = 1 / 32 := by norm_num
        have := fall32_five_below
        rw [e]
        linarith
      have := fl32_le_neg_pow _ (-5) (by norm_num) hx
      have hp := two_zpow_pos (-5)
      linarith
  refine ⟨63, le_refl _, fun k hk => ?_⟩
  have hfix : soloStep32 dtCap32 ((soloStep32 dtCap32)^[63] b) = (soloStep32 dtCap32)^[63] b :=
    soloStep32_of_sleeping _ _ hrest.2.2
  have hk2 : (soloStep32 dtCap32)^[k] b = (soloStep32 dtCap32)^[63] b := by
    obtain ⟨d, rfl⟩ := Nat.exists_eq_add_of_le hk
    rw [Nat.add_comm, Function.iterate_add_apply]
    exact Function.iterate_fixed hfix d
  refine ⟨_, iterate_UpdatePhysics32_solo t ht k s b hphys hscene, ?_⟩
  rw [hk2]
  exact hrest

theorem C13_drop_from_five_rests_witness :
    ∃ n : ℕ, n ≤ 63 ∧
      ∀ k : ℕ, n ≤ k → ∃ b1 : Block,
        ((UpdatePhysics32 dtCap32)^[k] dropDemo).currentPartBlocks = [b1] ∧
          b1.position.y = fl32 (dropCube.size.y / 2) ∧ b1.velocity.y = 0 ∧
          b1.isSleeping = true :=
  C13_drop_from_five_rests dtCap32 dropDemo dropCube rfl rfl rfl rfl (by decide) rfl rfl
    (le_refl _)

set_option maxRecDepth 100000 in
/-- In binary32, as in exact arithmetic, the unit cube dropped from height 5 is
still falling after 59 steps and at rest at height `1/2` after 60. -/
theorem dropDemo_settles32 :
    ((UpdatePhysics32 dtCap32)^[59] dropDemo).currentPartBlocks.map Block.isSleeping = [false] ∧
      ((UpdatePhysics32 dtCap32)^[60] dropDemo).currentPartBlocks =
        [{ dropCube with position := ⟨0, 1 / 2, 0⟩, isSleeping := true }] := by
  constructor <;> decide!

/-! ### Stacking in binary32 -/

theorem collideWith32_id (c o : Block) : (collideWith32 c o).id = c.id := by
  unfold collideWith32
  split_ifs <;> rfl

theorem integrateBlock32_id (dt : ℚ) (b : Block) : (integrateBlock32 dt b).id = b.id := by
  unfold integrateBlock32
  dsimp only
  split_ifs <;> rfl

theorem integrateBlock32_size (dt : ℚ) (b : Block) : (integrateBlock32 dt b).size = b.size := by
  unfold integrateBlock32
  dsimp only
  split_ifs <;> rfl

theorem CheckCollision32_iff (pa sa pb sb : Vector3) :
    CheckCollision32 pa sa pb sb = true ↔
      |fl32 (pa.x - pb.x)| < fl32 (fl32 (sa.x + sb.x) / 2) ∧
        |fl32 (pa.y - pb.y)| < fl32 (fl32 (sa.y + sb.y) / 2) ∧
        |fl32 (pa.z - pb.z)| < fl32 (fl32 (sa.z + sb.z) / 2) := by
  unfold CheckCollision32
  simp only [Bool.and_eq_true, decide_eq_true_eq, and_assoc]

theorem collideWith32_snap_eq (c o : Block) (hid : c.id ≠ o.id)
    (hc : CheckCollision32 c.position c.size o.position o.size = true)
    (habove : c.position.y > o.position.y) :
    collideWith32 c o =
      { c with
        position :=
          { c.position with
            y := fl32 (fl32 (o.position.y + fl32 (o.size.y / 2)) + fl32 (c.size.y / 2)) }
        velocity := { c.velocity with y := 0 }
        isSleeping := true } := by
  unfold collideWith32
  rw [if_neg hid, if_pos hc, if_pos habove]

theorem UpdatePhysics32_eq (t : ℚ) (s : AppState) :
    UpdatePhysics32 t s =
      if s.settings.physics = true then
        { s with currentPartBlocks := physicsPass32 (clampDt32 t) s.currentPartBlocks }
      else s := by
  unfold UpdatePhysics32 clampDt32
  cases s.settings.physics <;> rfl

/-- The binary32 pass on a sleeping block followed by an awake visible one of
another id. -/
theorem physicsPass32_sleeper_mover (dt : ℚ) (A B : Block) (hA : A.isSleeping = true)
    (hBv : B.visible = true) (hBa : B.isSleeping = false) :
    physicsPass32 dt [A, B] = [A, collideWith32 (integrateBlock32 dt B) A] := by
  have hself : ∀ c : Block, collideWith32 c c = c := fun c => collideWith32_of_id_eq c c rfl
  unfold physicsPass32
  simp [List.range_succ, stepBlock32, innerLoop32, innerStep32, hA, hBv, hBa, hself]

/-- The binary32 pass on an awake visible block followed by a sleeping one of
another id. -/
theorem physicsPass32_mover_sleeper (dt : ℚ) (A B : Block) (hA : A.isSleeping = true)
    (hBv : B.visible = true) (hBa : B.isSleeping = false) :
    physicsPass32 dt [B, A] = [collideWith32 (integrateBlock32 dt B) A, A] := by
  have hself : ∀ c : Block, collideWith32 c c = c := fun c => collideWith32_of_id_eq c c rfl
  unfold physicsPass32
  simp [List.range_succ, stepBlock32, innerLoop32, innerStep32, hA, hBv, hBa, hself]

set_option maxRecDepth 100000 in
/-- C12 fails as stated. `floatA` sleeps at `x = -0.1f` with size `(0.3f, 1, 1)`
and centre height `0.5`; `floatB`, visible and awake with another id, is at
`x = 0.1f` with size `(0.1f, 1, 1)` and centre height `1.25`. After the
integration and floor test of a step with `dt = 0.016f` the block `floatB`
overlaps `floatA` on the three axes in the sense of the three inequalities and
its centre is above that of `floatA`; but the test along x, evaluated in
binary32 as the code does, is `0.2f < 0.2f`, so `UpdatePhysics` leaves the
integrated `floatB` as it is: awake, with falling velocity, and not at height
`floatA.position.y + floatA.size.y/2 + floatB.size.y/2 = 3/2`. -/
theorem C12_counterexample :
    floatDemo.settings.physics = true ∧ floatDemo.currentPartBlocks = [floatA, floatB] ∧
      floatA.isSleeping = true ∧ floatB.visible = true ∧ floatB.isSleeping = false ∧
      floatB.id ≠ floatA.id ∧
      |(integrateBlock32 dtCap32 floatB).position.x - floatA.position.x| <
        ((integrateBlock32 dtCap32 floatB).size.x + floatA.size.x) / 2 ∧
      |(integrateBlock32 dtCap32 floatB).position.y - floatA.position.y| <
        ((integrateBlock32 dtCap32 floatB).size.y + floatA.size.y) / 2 ∧
      |(integrateBlock32 dtCap32 floatB).position.z - floatA.position.z| <
        ((integrateBlock32 dtCap32 floatB).size.z + floatA.size.z) / 2 ∧
      (integrateBlock32 dtCap32 floatB).position.y > floatA.position.y ∧
      (UpdatePhysics32 dtCap32 floatDemo).currentPartBlocks =
        [floatA, integrateBlock32 dtCap32 floatB] ∧
      (integrateBlock32 dtCap32 floatB).isSleeping = false ∧
      (integrateBlock32 dtCap32 floatB).velocity.y ≠ 0 ∧
      (integrateBlock32 dtCap32 floatB).position.y ≠
        floatA.position.y + floatA.size.y / 2 + floatB.size.y / 2 := by
  decide!

/-- C12, amended. In a step that runs (physics enabled, frame time `t ≥ 0`) on
a scene made of a sleeping block `A` and a visible awake block `B` of another
id, in either order, both with fields of magnitude at most `2^100`: if `B`, as
it is after its integration and floor test in this step, overlaps `A` on the
three axes as the code tests it in binary32
(`|fl(B.k - A.k)| < fl(fl(B.size.k + A.size.k) / 2)` for `k = x, y, z`) and has
its centre above the centre of `A`, then after `UpdatePhysics()` the scene holds
`A` unchanged and `B` with
`position.y = fl(fl(A.position.y + fl(A.size.y/2)) + fl(B.size.y/2))`,
`velocity.y = 0` and `isSleeping = true`. The bounds on the fields and on `t`
keep every operation of the step in the finite binary32 range, where `fl32` is
the result of the operation. -/
theorem C12_stacking_postcondition32 (t : ℚ) (s : AppState) (A B : Block)
    (hphys : s.settings.physics = true) (ht : 0 ≤ t)
    (hscene : s.currentPartBlocks = [A, B] ∨ s.currentPartBlocks = [B, A])
    (hA : A.isSleeping = true) (hBv : B.visible = true) (hBa : B.isSleeping = false)
    (hid : B.id ≠ A.id) (hAr : Moderate32 A) (hBr : Moderate32 B)
    (hx : |fl32 ((integrateBlock32 (clampDt32 t) B).position.x - A.position.x)| <
      fl32 (fl32 ((integrateBlock32 (clampDt32 t) B).size.x + A.size.x) / 2))
    (hy : |fl32 ((integrateBlock32 (clampDt32 t) B).position.y - A.position.y)| <
      fl32 (fl32 ((integrateBlock32 (clampDt32 t) B).size.y + A.size.y) / 2))
    (hz : |fl32 ((integrateBlock32 (clampDt32 t) B).position.z - A.position.z)| <
      fl32 (fl32 ((integrateBlock32 (clampDt32 t) B).size.z + A.size.z) / 2))
    (habove : (integrateBlock32 (clampDt32 t) B).position.y > A.position.y) :
    ∃ B1 : Block,
      ((s.currentPartBlocks = [A, B] ∧ (UpdatePhysics32 t s).currentPartBlocks = [A, B1]) ∨
        (s.currentPartBlocks = [B, A] ∧ (UpdatePhysics32 t s).currentPartBlocks = [B1, A])) ∧
      B1.position.y = fl32 (fl32 (A.position.y + fl32 (A.size.y / 2)) + fl32 (B.size.y / 2)) ∧
      B1.velocity.y = 0 ∧ B1.isSleeping = true ∧ B1.id = B.id := by
  have hid1 : (integrateBlock32 (clampDt32 t) B).id ≠ A.id := by
    rw [integrateBlock32_id]; exact hid
  have hcol : CheckCollision32 (integrateBlock32 (clampDt32 t) B).position
      (integrateBlock32 (clampDt32 t) B).size A.position A.size = true :=
    (CheckCollision32_iff _ _ _ _).mpr ⟨hx, hy, hz⟩
  have hsnap := collideWith32_snap_eq _ A hid1 hcol habove
  refine ⟨collideWith32 (integrateBlock32 (clampDt32 t) B) A, ?_, ?_, ?_, ?_, ?_⟩
  · rcases hscene with h | h
    · refine Or.inl ⟨h, ?_⟩
      rw [UpdatePhysics32_eq, if_pos hphys, h]
      exact physicsPass32_sleeper_mover _ A B hA hBv hBa
    · refine Or.inr ⟨h, ?_⟩
      rw [UpdatePhysics32_eq, if_pos hphys, h]
      exact physicsPass32_mover_sleeper _ A B hA hBv hBa
  · rw [hsnap]; dsimp only; rw [integrateBlock32_size]
  · rw [hsnap]
  · rw [hsnap]
  · rw [collideWith32_id, integrateBlock32_id]

theorem C12_stacking_postcondition32_witness :
    ∃ B1 : Block,
      ((touchDemo.currentPartBlocks = [cubeA, cubeOnTop] ∧
          (UpdatePhysics32 (1 / 60) touchDemo).currentPartBlocks = [cubeA, B1]) ∨
        (touchDemo.currentPartBlocks = [cubeOnTop, cubeA] ∧
          (UpdatePhysics32 (1 / 60) touchDemo).currentPartBlocks = [B1, cubeA])) ∧
      B1.position.y =
        fl32 (fl32 (cubeA.position.y + fl32 (cubeA.size.y / 2)) + fl32 (cubeOnTop.size.y / 2)) ∧
      B1.velocity.y = 0 ∧ B1.isSleeping = true ∧ B1.id = cubeOnTop.id :=
  C12_stacking_postcondition32 (1 / 60) touchDemo cubeA cubeOnTop rfl (by norm_num) (Or.inl rfl)
    rfl rfl rfl (by decide)
    (by norm_num [Moderate32, cubeA])
    (by norm_num [Moderate32, cubeA, cubeOnTop])
    (by decide!) (by decide!) (by decide!) (by decide!)

set_option maxRecDepth 100000 in
/-- In binary32 the cube released at height 2 above the sleeping unit cube at
height 0 comes to rest on it, at height 1, asleep with zero velocity. -/
theorem stackDemo_settles32 :
    ((UpdatePhysics32 (1 / 60))^[28] stackDemo).currentPartBlocks =
      [cubeA, { cubeB with position := ⟨0, 1, 0⟩, isSleeping := true }] := by
  decide!

end RayCAD
